import Mathlib

/-!
Verification of the DWG drawing-resolution core: color resolution (ACI
palette, entity/layer color precedence), insert transforms, arbitrary-axis
frames, bulge-arc tessellation, B-spline evaluation, polygon nesting, and
the recursive block-instance dispatcher.

Numeric model: JavaScript numbers are modelled as exact fields (`Int` for
color words and indices, `Real` or a generic linear ordered field for
geometry).  JavaScript `x | 0`-style truthiness on numeric fields is
modelled explicitly (`jsOrZ`), `typeof x === 'number'` on an optional
field is `Option.isSome`, and a `Map` is an association list searched from
the front.  Out-of-bounds array reads (which yield `undefined`/`NaN` in
JavaScript) are modelled with `List.getD _ 0`; every theorem whose claim
depends on an index keeps the corresponding in-bounds hypothesis.
-/

namespace Dwg

/-- JavaScript numeric truthiness fallback: the value of the expression
`v || d` when `v` is an optional numeric field (absent or `0` falls back
to `d`). -/
def jsOrZ (v : Option Int) (d : Int) : Int :=
  match v with
  | none => d
  | some x => if x = 0 then d else x

/-- ToInt32 coercion used by the JavaScript bitwise operators. -/
def toInt32 (x : Int) : Int :=
  (x + 2 ^ 31).emod (2 ^ 32) - 2 ^ 31

/-- JavaScript `x & 0xff` on a 32-bit view of `x`. -/
def jsAnd255 (x : Int) : Int :=
  (toInt32 x).emod 256

/-- JavaScript arithmetic shift `x >> n` (sign-propagating, i.e. flooring
division of the 32-bit view by `2 ^ n`). -/
def jsShr (x : Int) (n : Nat) : Int :=
  (toInt32 x).fdiv (2 ^ n)

/-- From `types.ts` / `part_011` `bgrToRgb`: extract the three bytes of a
BGR-packed word and reassemble them as RGB.  For byte values the bitwise
`(r << 16) | (g << 8) | b` of the source is the sum written here. -/
def bgrToRgb (bgr : Int) : Int :=
  let b := jsAnd255 (jsShr bgr 16)
  let g := jsAnd255 (jsShr bgr 8)
  let r := jsAnd255 bgr
  r * 65536 + g * 256 + b

/-- Layer-table entry as consumed by color resolution (`LayerInfo` in
`types.ts`): name, visibility flags, and the three optional color fields. -/
structure LayerInfo where
  name : String
  visible : Bool
  frozen : Bool
  locked : Bool
  color : Option Int
  colorIndex : Option Int
  trueColor : Option Int

/-- Entity record restricted to the fields color resolution reads. -/
structure DwgEntity where
  type : String
  layer : String
  trueColor : Option Int
  color : Option Int
  colorIndex : Option Int

/-- Draw context fields read by color resolution (`DrawContext` in
`types.ts`); the layer map is an association list. -/
structure DrawContext where
  layers : Option (List (String × LayerInfo))
  inheritedColor : Option Int

/-- Map lookup (`layers.get(name)`). -/
def lookupLayer (ls : List (String × LayerInfo)) (nm : String) : Option LayerInfo :=
  (ls.find? (fun p => p.1 = nm)).map (fun p => p.2)

namespace ThreeTypes

/-- The 255-entry AutoCAD Color Index table literal of
`src/three/types.ts getColorFromIndex` (`aciColors`), keyed by index and
modelled as an association list. -/
def aciTable : List (Int × Int) :=
  [
    (1, 0xff0000), (2, 0xffff00), (3, 0x00ff00), (4, 0x00ffff), (5, 0x0000ff),
    (6, 0xff00ff), (7, 0xffffff), (8, 0x808080), (9, 0xc0c0c0), (10, 0xff0000),
    (11, 0xff7f7f), (12, 0xa50000), (13, 0xa55252), (14, 0x7f0000), (15, 0x7f3f3f),
    (16, 0x4c0000), (17, 0x4c2626), (18, 0x330000), (19, 0x331919), (20, 0xff3f00),
    (21, 0xff9f7f), (22, 0xa52900), (23, 0xa56752), (24, 0x7f1f00), (25, 0x7f4f3f),
    (26, 0x4c1300), (27, 0x4c2f26), (28, 0x330d00), (29, 0x331f19), (30, 0xff7f00),
    (31, 0xffbf7f), (32, 0xa55200), (33, 0xa57b52), (34, 0x7f3f00), (35, 0x7f5f3f),
    (36, 0x4c2600), (37, 0x4c3926), (38, 0x331900), (39, 0x332619), (40, 0xffbf00),
    (41, 0xffdf7f), (42, 0xa57b00), (43, 0xa59052), (44, 0x7f5f00), (45, 0x7f6f3f),
    (46, 0x4c3900), (47, 0x4c4326), (48, 0x332600), (49, 0x332d19), (50, 0xffff00),
    (51, 0xffff7f), (52, 0xa5a500), (53, 0xa5a552), (54, 0x7f7f00), (55, 0x7f7f3f),
    (56, 0x4c4c00), (57, 0x4c4c26), (58, 0x333300), (59, 0x333319), (60, 0xbfff00),
    (61, 0xdfff7f), (62, 0x7ba500), (63, 0x90a552), (64, 0x5f7f00), (65, 0x6f7f3f),
    (66, 0x394c00), (67, 0x434c26), (68, 0x263300), (69, 0x2d3319), (70, 0x7fff00),
    (71, 0xbfff7f), (72, 0x52a500), (73, 0x7ba552), (74, 0x3f7f00), (75, 0x5f7f3f),
    (76, 0x264c00), (77, 0x394c26), (78, 0x193300), (79, 0x263319), (80, 0x3fff00),
    (81, 0x9fff7f), (82, 0x29a500), (83, 0x67a552), (84, 0x1f7f00), (85, 0x4f7f3f),
    (86, 0x134c00), (87, 0x2f4c26), (88, 0x0d3300), (89, 0x1f3319), (90, 0x00ff00),
    (91, 0x7fff7f), (92, 0x00a500), (93, 0x52a552), (94, 0x007f00), (95, 0x3f7f3f),
    (96, 0x004c00), (97, 0x264c26), (98, 0x003300), (99, 0x193319), (100, 0x00ff3f),
    (101, 0x7fff9f), (102, 0x00a529), (103, 0x52a567), (104, 0x007f1f), (105, 0x3f7f4f),
    (106, 0x004c13), (107, 0x264c2f), (108, 0x00330d), (109, 0x19331f), (110, 0x00ff7f),
    (111, 0x7fffbf), (112, 0x00a552), (113, 0x52a57b), (114, 0x007f3f), (115, 0x3f7f5f),
    (116, 0x004c26), (117, 0x264c39), (118, 0x003319), (119, 0x193326), (120, 0x00ffbf),
    (121, 0x7fffdf), (122, 0x00a57b), (123, 0x52a590), (124, 0x007f5f), (125, 0x3f7f6f),
    (126, 0x004c39), (127, 0x264c43), (128, 0x003326), (129, 0x19332d), (130, 0x00ffff),
    (131, 0x7fffff), (132, 0x00a5a5), (133, 0x52a5a5), (134, 0x007f7f), (135, 0x3f7f7f),
    (136, 0x004c4c), (137, 0x264c4c), (138, 0x003333), (139, 0x193333), (140, 0x00bfff),
    (141, 0x7fdfff), (142, 0x007ba5), (143, 0x5290a5), (144, 0x005f7f), (145, 0x3f6f7f),
    (146, 0x00394c), (147, 0x26434c), (148, 0x002633), (149, 0x192d33), (150, 0x007fff),
    (151, 0x7fbfff), (152, 0x0052a5), (153, 0x527ba5), (154, 0x003f7f), (155, 0x3f5f7f),
    (156, 0x00264c), (157, 0x26394c), (158, 0x001933), (159, 0x192633), (160, 0x003fff),
    (161, 0x7f9fff), (162, 0x0029a5), (163, 0x5267a5), (164, 0x001f7f), (165, 0x3f4f7f),
    (166, 0x00134c), (167, 0x262f4c), (168, 0x000d33), (169, 0x191f33), (170, 0x0000ff),
    (171, 0x7f7fff), (172, 0x0000a5), (173, 0x5252a5), (174, 0x00007f), (175, 0x3f3f7f),
    (176, 0x00004c), (177, 0x26264c), (178, 0x000033), (179, 0x191933), (180, 0x3f00ff),
    (181, 0x9f7fff), (182, 0x2900a5), (183, 0x6752a5), (184, 0x1f007f), (185, 0x4f3f7f),
    (186, 0x13004c), (187, 0x2f264c), (188, 0x0d0033), (189, 0x1f1933), (190, 0x7f00ff),
    (191, 0xbf7fff), (192, 0x5200a5), (193, 0x7b52a5), (194, 0x3f007f), (195, 0x5f3f7f),
    (196, 0x26004c), (197, 0x39264c), (198, 0x190033), (199, 0x261933), (200, 0xbf00ff),
    (201, 0xdf7fff), (202, 0x7b00a5), (203, 0x9052a5), (204, 0x5f007f), (205, 0x6f3f7f),
    (206, 0x39004c), (207, 0x43264c), (208, 0x260033), (209, 0x2d1933), (210, 0xff00ff),
    (211, 0xff7fff), (212, 0xa500a5), (213, 0xa552a5), (214, 0x7f007f), (215, 0x7f3f7f),
    (216, 0x4c004c), (217, 0x4c264c), (218, 0x330033), (219, 0x331933), (220, 0xff00bf),
    (221, 0xff7fdf), (222, 0xa5007b), (223, 0xa55290), (224, 0x7f005f), (225, 0x7f3f6f),
    (226, 0x4c0039), (227, 0x4c2643), (228, 0x330026), (229, 0x33192d), (230, 0xff007f),
    (231, 0xff7fbf), (232, 0xa50052), (233, 0xa5527b), (234, 0x7f003f), (235, 0x7f3f5f),
    (236, 0x4c0026), (237, 0x4c2639), (238, 0x330019), (239, 0x331926), (240, 0xff003f),
    (241, 0xff7f9f), (242, 0xa50029), (243, 0xa55267), (244, 0x7f001f), (245, 0x7f3f4f),
    (246, 0x4c0013), (247, 0x4c262f), (248, 0x33000d), (249, 0x33191f), (250, 0x333333),
    (251, 0x505050), (252, 0x696969), (253, 0x828282), (254, 0xbebebe), (255, 0xffffff)
  ]

/-- Lookup in the `aciColors` object literal. -/
def aciColors (i : Int) : Option Int :=
  (aciTable.find? (fun p => p.1 = i)).map (fun p => p.2)

/-- From `types.ts` `getColorFromIndex`: special-case index 7, then
`aciColors[colorIndex] || 0xffffff`. -/
def getColorFromIndex (colorIndex : Int) : Int :=
  if colorIndex = 7 then 0xffffff
  else jsOrZ (aciColors colorIndex) 0xffffff

/-- From `types.ts` `getLayerColor`: layer true-color (if nonzero), then
layer color index in 1..255 via the ACI table, then the plain color field
(as RGB when above 255, else as an index), then white. -/
def getLayerColor (layerName : String) (layers : Option (List (String × LayerInfo))) : Int :=
  match layers with
  | none => 0xffffff
  | some ls =>
    match lookupLayer ls layerName with
    | none => 0xffffff
    | some layer =>
      let t1 : Option Int := layer.trueColor.bind fun tc =>
        if tc ≠ 0 then some tc else none
      let t2 : Option Int := layer.colorIndex.bind fun ci =>
        if 0 < ci ∧ ci < 256 then some (getColorFromIndex ci) else none
      let t3 : Option Int := layer.color.bind fun c =>
        if c ≠ 0 then some (if 255 < c then c else getColorFromIndex c) else none
      (((t1.orElse fun _ => t2).orElse fun _ => t3)).getD 0xffffff

/-- Color-index tier of `types.ts getEntityColor`: absolute value of a
negative index, 256 = BYLAYER, 0 = BYBLOCK (inherited color, then layer,
then default), 1..255 = ACI lookup; any other index falls through. -/
def entityIndexTier (e : DwgEntity) (context : Option DrawContext) (defaultColor : Int) : Option Int :=
  e.colorIndex.bind fun ci0 =>
    let ci := if ci0 < 0 then |ci0| else ci0
    if ci = 256 then
      some (match context with
        | some ctx => match ctx.layers with
          | some _ => getLayerColor e.layer ctx.layers
          | none => defaultColor
        | none => defaultColor)
    else if ci = 0 then
      some (match context with
        | some ctx =>
          match ctx.inheritedColor with
          | some ic => ic
          | none => match ctx.layers with
            | some _ => getLayerColor e.layer ctx.layers
            | none => defaultColor
        | none => defaultColor)
    else if 0 < ci ∧ ci < 256 then some (getColorFromIndex ci)
    else none

/-- From `types.ts` `getEntityColor` (the canonical resolver): entity
true-color (if nonzero), then the color-index tier, then the raw color
field (as RGB when above 255, else as an index), then the layer color,
then the default. -/
def getEntityColor (e : DwgEntity) (context : Option DrawContext) (defaultColor : Int) : Int :=
  let t1 : Option Int := e.trueColor.bind fun tc =>
    if tc ≠ 0 then some tc else none
  let t2 : Option Int := entityIndexTier e context defaultColor
  let t3 : Option Int := e.color.bind fun c =>
    if c ≠ 0 then some (if 255 < c then c else getColorFromIndex c) else none
  let t4 : Option Int := match context with
    | some ctx => match ctx.layers with
      | some _ => some (getLayerColor e.layer ctx.layers)
      | none => none
    | none => none
  ((((t1.orElse fun _ => t2).orElse fun _ => t3).orElse fun _ => t4)).getD defaultColor

end ThreeTypes

namespace Part011

/-- The shortened ACI table literal of the duplicate `getColorFromIndex`
in `part_011`: only indices 0..7 are present. -/
def aciColors : Int → Option Int
  | 0 => some 0x000000
  | 1 => some 0xff0000
  | 2 => some 0xffff00
  | 3 => some 0x00ff00
  | 4 => some 0x00ffff
  | 5 => some 0x0000ff
  | 6 => some 0xff00ff
  | 7 => some 0xffffff
  | _ => none

/-- From `part_011` `getColorFromIndex`: `aciColors[colorIndex] || 0xffffff`. -/
def getColorFromIndex (colorIndex : Int) : Int :=
  jsOrZ (aciColors colorIndex) 0xffffff

/-- From `types.ts` / `part_011` `isValidRgbColor`. -/
def isValidRgbColor (color : Int) : Bool :=
  0 ≤ color ∧ color ≤ 0xffffff

/-- From `part_011` `getLayerColor`: layer true-color when in RGB range,
then layer color index in 1..255, then the plain color field when in RGB
range, then white. -/
def getLayerColor (layerName : String) (layers : Option (List (String × LayerInfo))) : Int :=
  match layers with
  | none => 0xffffff
  | some ls =>
    match lookupLayer ls layerName with
    | none => 0xffffff
    | some layer =>
      let t1 : Option Int := layer.trueColor.bind fun tc =>
        if isValidRgbColor tc then some tc else none
      let t2 : Option Int := layer.colorIndex.bind fun ci =>
        if 0 < ci ∧ ci < 256 then some (getColorFromIndex ci) else none
      let t3 : Option Int := layer.color.bind fun c =>
        if isValidRgbColor c then some c else none
      (((t1.orElse fun _ => t2).orElse fun _ => t3)).getD 0xffffff

/-- Color-index tier of `part_011 getEntityColor` (same structure as the
canonical one, but with a fixed white default). -/
def entityIndexTier (e : DwgEntity) (context : Option DrawContext) : Option Int :=
  e.colorIndex.bind fun ci0 =>
    let ci := if ci0 < 0 then |ci0| else ci0
    if ci = 256 then
      some (match context with
        | some ctx => match ctx.layers with
          | some _ => getLayerColor e.layer ctx.layers
          | none => 0xffffff
        | none => 0xffffff)
    else if ci = 0 then
      some (match context with
        | some ctx =>
          match ctx.inheritedColor with
          | some ic => ic
          | none => match ctx.layers with
            | some _ => getLayerColor e.layer ctx.layers
            | none => 0xffffff
        | none => 0xffffff)
    else if 0 < ci ∧ ci < 256 then some (getColorFromIndex ci)
    else none

/-- From `part_011` `getEntityColor` (the duplicate resolver): entity
true-color when in RGB range, then the raw packed BGR color whenever the
field is present, then the color-index tier, then the layer color, then
white. -/
def getEntityColor (e : DwgEntity) (context : Option DrawContext) : Int :=
  let t1 : Option Int := e.trueColor.bind fun tc =>
    if isValidRgbColor tc then some tc else none
  let t2 : Option Int := e.color.map fun c => bgrToRgb c
  let t3 : Option Int := entityIndexTier e context
  let t4 : Option Int := match context with
    | some ctx => match ctx.layers with
      | some _ => some (getLayerColor e.layer ctx.layers)
      | none => none
    | none => none
  ((((t1.orElse fun _ => t2).orElse fun _ => t3).orElse fun _ => t4)).getD 0xffffff

end Part011

end Dwg

namespace Dwg

/-- An option chain of the shape used by the color resolvers: once the
second tier is populated, the later tiers and the default are never
consulted. -/
theorem orElse_chain_skips_tail {o1 o2 : Option Int} (h2 : o2.isSome)
    (o3 o3a o4 o4a : Option Int) (d : Int) :
    ((((o1.orElse fun _ => o2).orElse fun _ => o3).orElse fun _ => o4)).getD d =
      ((((o1.orElse fun _ => o2).orElse fun _ => o3a).orElse fun _ => o4a)).getD d := by
  obtain ⟨v, hv⟩ := Option.isSome_iff_exists.mp h2
  cases o1 <;> simp [hv, Option.orElse]

/-- The color-index tier of the canonical resolver is populated whenever
the index is present with absolute value at most 256. -/
theorem entityIndexTier_isSome (e : DwgEntity) (context : Option DrawContext)
    (d ci : Int) (h : e.colorIndex = some ci) (hr : |ci| ≤ 256) :
    (ThreeTypes.entityIndexTier e context d).isSome := by
  unfold ThreeTypes.entityIndexTier
  rw [h]
  simp only [Option.some_bind]
  have habs : (if ci < 0 then |ci| else ci) = |ci| := by
    rcases lt_or_le ci 0 with hlt | hle
    · simp [hlt]
    · simp [not_lt.mpr hle, abs_of_nonneg hle]
  rw [habs]
  by_cases h256 : |ci| = 256
  · simp [h256]
  · by_cases h0 : |ci| = 0
    · simp [h256, h0]
    · have h1 : 0 < |ci| := lt_of_le_of_ne (abs_nonneg ci) (Ne.symm h0)
      have h2 : |ci| < 256 := lt_of_le_of_ne hr h256
      simp [h256, h0, h1, h2]

end Dwg

namespace Dwg

/-- C1 (counterexample): the claim that `getEntityColor` never consults the
raw packed color when the color-index field is present is false on the
code.  The duplicate resolver in `part_011` returns the BGR-decoded raw
color `0xff0000` for an entity with color-index 3 (which the ACI table
maps to `0x00ff00`), and even the canonical resolver in `types.ts` lets an
out-of-range index 257 fall to the raw-color tier, so its result tracks
the raw color field. -/
theorem C1_raw_color_counterexample :
    Part011.getEntityColor ⟨"LINE", "0", none, some 0x0000ff, some 3⟩ none = 0xff0000 ∧
      ThreeTypes.getEntityColor ⟨"LINE", "0", none, some 0x0000ff, some 3⟩ none 0xffffff = 0x00ff00 ∧
      ThreeTypes.getEntityColor ⟨"LINE", "0", none, some 0x123456, some 257⟩ none 0xffffff = 0x123456 ∧
      ThreeTypes.getEntityColor ⟨"LINE", "0", none, some 0x654321, some 257⟩ none 0xffffff = 0x654321 ∧
      (0x123456 : Int) ≠ 0x654321 := by
  refine ⟨by decide, by decide, by decide, by decide, by decide⟩

/-- C1 (amended): for the canonical `getEntityColor` of `types.ts`, for
every entity whose color-index is present with absolute value at most 256,
the raw packed color field never influences the result: the precedence is
entity true-color first, then the color-index tier (256 BYLAYER, 0 BYBLOCK,
1–255 ACI), and the raw-color tier is reachable only when the color-index
is absent or out of that range. -/
theorem C1_color_index_shields_raw_color (e : DwgEntity) (context : Option DrawContext)
    (d c2 ci : Int) (h : e.colorIndex = some ci) (hr : |ci| ≤ 256) :
    ThreeTypes.getEntityColor { e with color := c2 } context d =
      ThreeTypes.getEntityColor e context d := by
  have hsome := entityIndexTier_isSome e context d ci h hr
  have hmod : ThreeTypes.entityIndexTier { e with color := c2 } context d =
      ThreeTypes.entityIndexTier e context d := rfl
  unfold ThreeTypes.getEntityColor
  simp only [hmod]
  exact orElse_chain_skips_tail hsome _ _ _ _ _

/-- C1 (witness): the amended precedence theorem applied to a concrete
BYLAYER entity. -/
theorem C1_color_index_shields_raw_color_witness :
    ThreeTypes.getEntityColor ⟨"LINE", "L1", none, some 0x222222, some 256⟩ none 0xabcdef =
      ThreeTypes.getEntityColor ⟨"LINE", "L1", none, some 0x111111, some 256⟩ none 0xabcdef :=
  C1_color_index_shields_raw_color ⟨"LINE", "L1", none, some 0x111111, some 256⟩ none
    0xabcdef 0x222222 256 rfl (by decide)

/-- C3 (counterexample): the claim that `getColorFromIndex` ships the full
255-entry ACI table is false on the `part_011` copy, which defines only
indices 0–7 and answers the generic default `0xffffff` for indices 8 and
100 where the standard table (and the `types.ts` copy) has `0x808080` and
`0x00ff3f`. -/
theorem C3_aci_table_counterexample :
    Part011.getColorFromIndex 8 = 0xffffff ∧
      ThreeTypes.getColorFromIndex 8 = 0x808080 ∧
      Part011.getColorFromIndex 100 = 0xffffff ∧
      ThreeTypes.getColorFromIndex 100 = 0x00ff3f := by
  refine ⟨by decide, by decide, by decide, by decide⟩

set_option maxRecDepth 4000 in
/-- C3 (amended): the `getColorFromIndex` of `types.ts` does implement the
full table: every index 1–255 has an explicit nonzero entry, the
`0xffffff` fallback is never consulted there, index 1 is pure red and
index 3 is the standard green entry; the `part_011` copy instead answers
the white default for every index 8–255. -/
theorem C3_aci_full_table :
    (∀ i ∈ Finset.Icc (1 : Int) 255,
        (ThreeTypes.aciColors i).isSome = true ∧
          (ThreeTypes.aciColors i).getD 0 ≠ 0 ∧
          ThreeTypes.getColorFromIndex i = (ThreeTypes.aciColors i).getD 0) ∧
      ThreeTypes.getColorFromIndex 1 = 0xff0000 ∧
      ThreeTypes.getColorFromIndex 3 = 0x00ff00 ∧
      (∀ i ∈ Finset.Icc (8 : Int) 255, Part011.getColorFromIndex i = 0xffffff) := by
  refine ⟨by decide, by decide, by decide, by decide⟩

/-- C3 (witness): the full-table theorem applied at index 3. -/
theorem C3_aci_full_table_witness :
    ThreeTypes.getColorFromIndex 3 = (ThreeTypes.aciColors 3).getD 0 ∧
      Part011.getColorFromIndex 9 = 0xffffff :=
  ⟨(C3_aci_full_table.1 3 (by decide)).2.2, C3_aci_full_table.2.2.2 9 (by decide)⟩

end Dwg

namespace Dwg

noncomputable section Geometry

open Real

/-- JavaScript numeric truthiness fallback over the reals (`v || d` on an
optional numeric field). -/
def jsOrR (v : Option ℝ) (d : ℝ) : ℝ :=
  match v with
  | none => d
  | some x => if x = 0 then d else x

/-- THREE.Vector3 over the reals. -/
structure Vec3 where
  x : ℝ
  y : ℝ
  z : ℝ

/-- THREE `Vector3.length`. -/
def Vec3.length (v : Vec3) : ℝ :=
  Real.sqrt (v.x * v.x + v.y * v.y + v.z * v.z)

/-- THREE `Vector3.normalize`: divide by `length() || 1`. -/
def Vec3.normalize (v : Vec3) : Vec3 :=
  let d := if v.length = 0 then 1 else v.length
  ⟨v.x / d, v.y / d, v.z / d⟩

/-- THREE `Vector3.cross`. -/
def Vec3.cross (a b : Vec3) : Vec3 :=
  ⟨a.y * b.z - a.z * b.y, a.z * b.x - a.x * b.z, a.x * b.y - a.y * b.x⟩

/-- Dot product, used in statements about orthogonality. -/
def Vec3.dot (a b : Vec3) : ℝ :=
  a.x * b.x + a.y * b.y + a.z * b.z

/-- Mathematical normalization (division by the length, no truthiness
guard); used on the specification side of the arbitrary-axis claim. -/
def unitize (v : Vec3) : Vec3 :=
  ⟨v.x / v.length, v.y / v.length, v.z / v.length⟩

/-- THREE.Matrix4 over the reals, row-major with column vectors. -/
abbrev Matrix4 := Matrix (Fin 4) (Fin 4) ℝ

/-- THREE `Matrix4.makeTranslation`. -/
def makeTranslation (x y z : ℝ) : Matrix4 :=
  !![1, 0, 0, x; 0, 1, 0, y; 0, 0, 1, z; 0, 0, 0, 1]

/-- THREE `Matrix4.makeScale`. -/
def makeScale (x y z : ℝ) : Matrix4 :=
  !![x, 0, 0, 0; 0, y, 0, 0; 0, 0, z, 0; 0, 0, 0, 1]

/-- THREE `Matrix4.makeRotationZ`. -/
def makeRotationZ (θ : ℝ) : Matrix4 :=
  !![Real.cos θ, -Real.sin θ, 0, 0;
     Real.sin θ, Real.cos θ, 0, 0;
     0, 0, 1, 0;
     0, 0, 0, 1]

/-- THREE `Matrix4.makeBasis`: the three vectors become the first three
columns of the rotation block. -/
def makeBasis (ex ey ez : Vec3) : Matrix4 :=
  !![ex.x, ey.x, ez.x, 0;
     ex.y, ey.y, ez.y, 0;
     ex.z, ey.z, ez.z, 0;
     0, 0, 0, 1]

/-- From `types.ts` / `part_011` `getOcsToWcsMatrix`: the arbitrary-axis
construction.  Normalize the extrusion to get `ez`; when both of its first
two components are below 1/64 in magnitude cross the world Y axis with it,
otherwise the world Z axis; `ey` completes the right-handed frame. -/
def getOcsToWcsMatrix (extrusionDirection : Vec3) : Matrix4 :=
  let ez := extrusionDirection.normalize
  let ex :=
    if |ez.x| < 1 / 64 ∧ |ez.y| < 1 / 64 then
      (Vec3.cross ⟨0, 1, 0⟩ ez).normalize
    else
      (Vec3.cross ⟨0, 0, 1⟩ ez).normalize
  let ey := (ez.cross ex).normalize
  makeBasis ex ey ez

/-- Insertion point or base point: `{ x, y, z? }` in the source. -/
structure PointZ where
  x : ℝ
  y : ℝ
  z : Option ℝ

/-- Per-axis scale: `{ x, y, z? }` in the source. -/
structure ScaleXYZ where
  x : ℝ
  y : ℝ
  z : Option ℝ

/-- Declared default of the `applyBasePointOffset` parameter of
`createInsertTransformMatrix` in `part_011`. -/
def part011DefaultApplyBasePointOffset : Bool := false

/-- Declared default of the `applyBasePointOffset` parameter of
`createInsertTransformMatrix` in `types.ts`. -/
def threeTypesDefaultApplyBasePointOffset : Bool := true

namespace Part011

/-- From `part_011` `createInsertTransformMatrix`: the base-point offset
matrix is computed under the flag but, per the final comment of the
source (`不应用 basePointOffsetMatrix`), never multiplied into the result;
the product is translation × OCS × rotation × scale. -/
def createInsertTransformMatrix (insertionPoint : PointZ) (basePoint : Option PointZ)
    (scale : ScaleXYZ) (rotation : ℝ) (extrusionDirection : Option Vec3)
    (scaleFactor : ℝ) (applyBasePointOffset : Bool) : Matrix4 :=
  let _basePointOffsetMatrix : Matrix4 :=
    match applyBasePointOffset, basePoint with
    | true, some bp =>
        makeTranslation (-bp.x * scaleFactor) (-bp.y * scaleFactor)
          (-(jsOrR bp.z 0) * scaleFactor)
    | _, _ => 1
  let scaleMatrix := makeScale scale.x scale.y (jsOrR scale.z 1)
  let rotationMatrix := makeRotationZ rotation
  let ocsMatrix : Matrix4 :=
    match extrusionDirection with
    | some ed => if ed.x ≠ 0 ∨ ed.y ≠ 0 ∨ ed.z ≠ 1 then getOcsToWcsMatrix ed else 1
    | none => 1
  let translationMatrix :=
    makeTranslation (insertionPoint.x * scaleFactor) (insertionPoint.y * scaleFactor)
      ((jsOrR insertionPoint.z 0) * scaleFactor)
  translationMatrix * ocsMatrix * rotationMatrix * scaleMatrix

end Part011

namespace ThreeTypes

/-- From `types.ts` `createInsertTransformMatrix`: the product is
OCS × translation × rotation × scale × base-point offset, the offset
being the translation by the negated, `scaleFactor`-scaled base point
when the flag is set and a base point is present, identity otherwise. -/
def createInsertTransformMatrix (insertionPoint : PointZ) (basePoint : Option PointZ)
    (scale : ScaleXYZ) (rotation : ℝ) (extrusionDirection : Option Vec3)
    (scaleFactor : ℝ) (applyBasePointOffset : Bool) : Matrix4 :=
  let basePointOffsetMatrix : Matrix4 :=
    match applyBasePointOffset, basePoint with
    | true, some bp =>
        makeTranslation (-bp.x * scaleFactor) (-bp.y * scaleFactor)
          (-(jsOrR bp.z 0) * scaleFactor)
    | _, _ => 1
  let scaleMatrix := makeScale scale.x scale.y (jsOrR scale.z 1)
  let rotationMatrix := makeRotationZ rotation
  let ocsMatrix : Matrix4 :=
    match extrusionDirection with
    | some ed => if ed.x ≠ 0 ∨ ed.y ≠ 0 ∨ ed.z ≠ 1 then getOcsToWcsMatrix ed else 1
    | none => 1
  let translationMatrix :=
    makeTranslation (insertionPoint.x * scaleFactor) (insertionPoint.y * scaleFactor)
      ((jsOrR insertionPoint.z 0) * scaleFactor)
  ocsMatrix * translationMatrix * rotationMatrix * scaleMatrix * basePointOffsetMatrix

end ThreeTypes

end Geometry

end Dwg

namespace Dwg

/-- The translation by the zero vector is the identity matrix. -/
theorem makeTranslation_zero : makeTranslation 0 0 0 = 1 := by
  ext i j
  fin_cases i <;> fin_cases j <;>
    simp [makeTranslation, Matrix.one_apply, Matrix.vecHead, Matrix.vecTail]

/-- The unit scale matrix is the identity matrix. -/
theorem makeScale_one : makeScale 1 1 1 = 1 := by
  ext i j
  fin_cases i <;> fin_cases j <;>
    simp [makeScale, Matrix.one_apply, Matrix.vecHead, Matrix.vecTail]

/-- A zero-angle Z rotation is the identity matrix. -/
theorem makeRotationZ_zero : makeRotationZ 0 = 1 := by
  ext i j
  fin_cases i <;> fin_cases j <;>
    simp [makeRotationZ, Matrix.one_apply, Matrix.vecHead, Matrix.vecTail]

/-- A translation by a nonzero x component is not the identity matrix. -/
theorem makeTranslation_ne_one : makeTranslation (-1) (-2) 0 ≠ (1 : Matrix4) := by
  intro h
  have h2 := congrFun (congrFun h 0) 3
  simp [makeTranslation, Matrix.one_apply] at h2

/-- C4 (counterexample): the claim that the `applyBasePointOffset`
parameter is honored is false on the `part_011` copy.  With the flag set
and base point `(1,2,0)` (all other inputs trivial) the returned matrix is
the identity — the computed offset matrix is never composed — whereas the
claimed innermost factor `makeTranslation (-1) (-2) 0` is not the
identity; and the `types.ts` copy declares default `true`, not the claimed
`false`. -/
theorem C4_base_point_flag_counterexample :
    Part011.createInsertTransformMatrix ⟨0, 0, none⟩ (some ⟨1, 2, none⟩) ⟨1, 1, none⟩ 0 none 1
        true = 1 ∧
      makeTranslation (-1) (-2) 0 ≠ (1 : Matrix4) ∧
      threeTypesDefaultApplyBasePointOffset = true := by
  refine ⟨?_, makeTranslation_ne_one, rfl⟩
  show makeTranslation (0 * 1) (0 * 1) (jsOrR none 0 * 1) * 1 * makeRotationZ 0 *
      makeScale 1 1 (jsOrR none 1) = 1
  have hz : jsOrR none 0 = 0 := rfl
  have ho : jsOrR none 1 = 1 := rfl
  rw [hz, ho]
  norm_num [makeTranslation_zero, makeRotationZ_zero, makeScale_one]

/-- C4 (amended): both copies expose `applyBasePointOffset` explicitly;
`part_011` declares default `false` but ignores the flag entirely (its
result never depends on the flag or on the base point), while `types.ts`
declares default `true` and honors the flag: with the flag unset the
result is independent of the base point, and with the flag set and a base
point present the translation by the negated scaled base point is
composed as the innermost (rightmost) factor. -/
theorem C4_base_point_flag_amended :
    part011DefaultApplyBasePointOffset = false ∧
      threeTypesDefaultApplyBasePointOffset = true ∧
      (∀ (ip : PointZ) (bp : Option PointZ) (sc : ScaleXYZ) (rot : ℝ) (ed : Option Vec3)
          (sf : ℝ) (flag : Bool),
        Part011.createInsertTransformMatrix ip bp sc rot ed sf flag =
          Part011.createInsertTransformMatrix ip none sc rot ed sf false) ∧
      (∀ (ip : PointZ) (bp : Option PointZ) (sc : ScaleXYZ) (rot : ℝ) (ed : Option Vec3)
          (sf : ℝ),
        ThreeTypes.createInsertTransformMatrix ip bp sc rot ed sf false =
          ThreeTypes.createInsertTransformMatrix ip none sc rot ed sf false) ∧
      (∀ (ip : PointZ) (bp : PointZ) (sc : ScaleXYZ) (rot : ℝ) (ed : Option Vec3) (sf : ℝ),
        ThreeTypes.createInsertTransformMatrix ip (some bp) sc rot ed sf true =
          ThreeTypes.createInsertTransformMatrix ip none sc rot ed sf false *
            makeTranslation (-bp.x * sf) (-bp.y * sf) (-(jsOrR bp.z 0) * sf)) := by
  refine ⟨rfl, rfl, ?_, ?_, ?_⟩
  · intro ip bp sc rot ed sf flag
    cases bp <;> cases flag <;> rfl
  · intro ip bp sc rot ed sf
    cases bp <;> rfl
  · intro ip bp sc rot ed sf
    show _ = _
    simp only [ThreeTypes.createInsertTransformMatrix]
    rw [mul_one]

end Dwg

namespace Dwg

/-- Sum of squared components; `v.length = Real.sqrt v.sumsq`. -/
def Vec3.sumsq (v : Vec3) : ℝ :=
  v.x * v.x + v.y * v.y + v.z * v.z

theorem Vec3.sumsq_nonneg (v : Vec3) : 0 ≤ v.sumsq := by
  have := sq_nonneg v.x
  have := sq_nonneg v.y
  have := sq_nonneg v.z
  simp only [Vec3.sumsq]
  nlinarith

theorem Vec3.length_eq_sqrt (v : Vec3) : v.length = Real.sqrt v.sumsq := rfl

theorem Vec3.length_eq_zero_iff (v : Vec3) : v.length = 0 ↔ v = ⟨0, 0, 0⟩ := by
  rw [Vec3.length_eq_sqrt, Real.sqrt_eq_zero (Vec3.sumsq_nonneg v)]
  constructor
  · intro h
    simp only [Vec3.sumsq] at h
    have hx : v.x = 0 := by nlinarith [sq_nonneg v.x, sq_nonneg v.y, sq_nonneg v.z]
    have hy : v.y = 0 := by nlinarith [sq_nonneg v.x, sq_nonneg v.y, sq_nonneg v.z]
    have hz : v.z = 0 := by nlinarith [sq_nonneg v.x, sq_nonneg v.y, sq_nonneg v.z]
    cases v
    simp_all
  · intro h
    subst h
    simp [Vec3.sumsq]

theorem Vec3.normalize_eq_unitize (v : Vec3) (h : v.length ≠ 0) :
    v.normalize = unitize v := by
  simp [Vec3.normalize, unitize, h]

theorem Vec3.sumsq_of_length_one (v : Vec3) (h : v.length = 1) : v.sumsq = 1 := by
  have h2 : Real.sqrt v.sumsq = 1 := h
  have := Vec3.sumsq_nonneg v
  nlinarith [Real.sq_sqrt this, h2]

theorem unitize_length_eq_one (v : Vec3) (h : v.length ≠ 0) :
    (unitize v).length = 1 := by
  have hpos : 0 < v.length := lt_of_le_of_ne (Real.sqrt_nonneg _) (Ne.symm h)
  have hs : v.length * v.length = v.sumsq := Real.mul_self_sqrt (Vec3.sumsq_nonneg v)
  have hq : (unitize v).sumsq = v.sumsq / (v.length * v.length) := by
    simp only [Vec3.sumsq, unitize]
    field_simp
  have hsq : 0 < v.sumsq := by nlinarith
  rw [Vec3.length_eq_sqrt, hq, hs, div_self (ne_of_gt hsq)]
  exact Real.sqrt_one

end Dwg

namespace Dwg

theorem Vec3.cross_sumsq (a b : Vec3) :
    (a.cross b).sumsq = a.sumsq * b.sumsq - a.dot b * a.dot b := by
  simp only [Vec3.cross, Vec3.sumsq, Vec3.dot]
  ring

theorem Vec3.dot_cross_right (a b : Vec3) : b.dot (a.cross b) = 0 := by
  simp only [Vec3.cross, Vec3.dot]
  ring

theorem Vec3.dot_unitize (a c : Vec3) : a.dot (unitize c) = a.dot c / c.length := by
  simp only [Vec3.dot, unitize]
  ring

/-- The first branch of the arbitrary-axis construction never produces a
zero cross product: the world Y axis crossed with a unit vector whose x
and y components are both below 1/64 in magnitude is nonzero. -/
theorem cross_worldY_ne_zero (ez : Vec3) (hunit : ez.length = 1)
    (hy : |ez.y| < 1 / 64) :
    (Vec3.cross ⟨0, 1, 0⟩ ez).length ≠ 0 := by
  intro h
  rw [Vec3.length_eq_zero_iff] at h
  have hs := Vec3.sumsq_of_length_one ez hunit
  simp only [Vec3.cross, Vec3.mk.injEq] at h
  simp only [Vec3.sumsq] at hs
  obtain ⟨h1, _, h3⟩ := h
  have hz0 : ez.z = 0 := by linarith
  have hx0 : ez.x = 0 := by linarith
  nlinarith [sq_abs ez.y, abs_nonneg ez.y]

/-- The second branch never produces a zero cross product either: if the
branch condition fails, the x and y components cannot both vanish. -/
theorem cross_worldZ_ne_zero (ez : Vec3)
    (hcond : ¬(|ez.x| < 1 / 64 ∧ |ez.y| < 1 / 64)) :
    (Vec3.cross ⟨0, 0, 1⟩ ez).length ≠ 0 := by
  intro h
  rw [Vec3.length_eq_zero_iff] at h
  simp only [Vec3.cross, Vec3.mk.injEq] at h
  obtain ⟨h1, h2, _⟩ := h
  have hx0 : ez.x = 0 := by linarith
  have hy0 : ez.y = 0 := by linarith
  exact hcond (by rw [hx0, hy0]; norm_num)

/-- The cross product of two orthogonal unit vectors is nonzero. -/
theorem cross_unit_orth_ne_zero (u w : Vec3) (hu : u.length = 1) (hw : w.length = 1)
    (hdot : u.dot w = 0) : (u.cross w).length ≠ 0 := by
  intro h
  rw [Vec3.length_eq_zero_iff] at h
  have hzero : (u.cross w).sumsq = 0 := by
    rw [h]
    simp [Vec3.sumsq]
  rw [Vec3.cross_sumsq, Vec3.sumsq_of_length_one u hu, Vec3.sumsq_of_length_one w hw,
    hdot] at hzero
  norm_num at hzero

/-- Entries of a `makeBasis` matrix: the three vectors are its columns. -/
theorem makeBasis_apply (ex ey ez : Vec3) :
    (makeBasis ex ey ez) 0 0 = ex.x ∧ (makeBasis ex ey ez) 1 0 = ex.y ∧
      (makeBasis ex ey ez) 2 0 = ex.z ∧ (makeBasis ex ey ez) 0 1 = ey.x ∧
      (makeBasis ex ey ez) 1 1 = ey.y ∧ (makeBasis ex ey ez) 2 1 = ey.z ∧
      (makeBasis ex ey ez) 0 2 = ez.x ∧ (makeBasis ex ey ez) 1 2 = ez.y ∧
      (makeBasis ex ey ez) 2 2 = ez.z := by
  refine ⟨?_, ?_, ?_, ?_, ?_, ?_, ?_, ?_, ?_⟩ <;>
    simp [makeBasis, Matrix.vecHead, Matrix.vecTail]

noncomputable section ArbitraryAxisSpec

/-- Specification-side `ex` of the arbitrary-axis construction: the
normalized cross of world Y (when both leading components of `ez` are
small) or world Z (otherwise) with the normalized extrusion, written with
the guard-free mathematical normalization. -/
def arbitraryAxisEx (ed : Vec3) : Vec3 :=
  if |(unitize ed).x| < 1 / 64 ∧ |(unitize ed).y| < 1 / 64 then
    unitize (Vec3.cross ⟨0, 1, 0⟩ (unitize ed))
  else
    unitize (Vec3.cross ⟨0, 0, 1⟩ (unitize ed))

/-- Specification-side `ey`: the normalized cross of `ez` with `ex`. -/
def arbitraryAxisEy (ed : Vec3) : Vec3 :=
  unitize ((unitize ed).cross (arbitraryAxisEx ed))

end ArbitraryAxisSpec

/-- The column property claimed for the arbitrary-axis matrix of a given
extrusion: `ez` is the normalized extrusion, `ex` is the normalized cross
of world Y (first branch) or world Z (second branch) with `ez`, `ey` is
the normalized cross of `ez` with `ex`, and these three vectors are the
first three columns of the matrix. -/
def arbitraryAxisColumnsSpec (ed : Vec3) : Prop :=
  (getOcsToWcsMatrix ed) 0 0 = (arbitraryAxisEx ed).x ∧
    (getOcsToWcsMatrix ed) 1 0 = (arbitraryAxisEx ed).y ∧
    (getOcsToWcsMatrix ed) 2 0 = (arbitraryAxisEx ed).z ∧
    (getOcsToWcsMatrix ed) 0 1 = (arbitraryAxisEy ed).x ∧
    (getOcsToWcsMatrix ed) 1 1 = (arbitraryAxisEy ed).y ∧
    (getOcsToWcsMatrix ed) 2 1 = (arbitraryAxisEy ed).z ∧
    (getOcsToWcsMatrix ed) 0 2 = (unitize ed).x ∧
    (getOcsToWcsMatrix ed) 1 2 = (unitize ed).y ∧
    (getOcsToWcsMatrix ed) 2 2 = (unitize ed).z

end Dwg

namespace Dwg

/-- C7: for every nonzero extrusion vector, the object-to-world rotation
built by `getOcsToWcsMatrix` has basis columns `(ex, ey, ez)` with `ez`
the normalized extrusion, `ex` the normalized cross of world Y with `ez`
when both leading components of `ez` are below 1/64 in magnitude and of
world Z with `ez` otherwise, and `ey` the normalized cross of `ez` with
`ex`. -/
theorem C7_arbitrary_axis_columns (ed : Vec3) (h : ed ≠ ⟨0, 0, 0⟩) :
    arbitraryAxisColumnsSpec ed := by
  have hlen : ed.length ≠ 0 := fun hl => h ((Vec3.length_eq_zero_iff ed).mp hl)
  have hnu : ed.normalize = unitize ed := Vec3.normalize_eq_unitize ed hlen
  have hezu : (unitize ed).length = 1 := unitize_length_eq_one ed hlen
  unfold arbitraryAxisColumnsSpec arbitraryAxisEy arbitraryAxisEx getOcsToWcsMatrix
  rw [hnu]
  by_cases hc : |(unitize ed).x| < 1 / 64 ∧ |(unitize ed).y| < 1 / 64
  · rw [if_pos hc, if_pos hc]
    have hcne := cross_worldY_ne_zero (unitize ed) hezu hc.2
    rw [Vec3.normalize_eq_unitize _ hcne]
    have hexu : (unitize (Vec3.cross ⟨0, 1, 0⟩ (unitize ed))).length = 1 :=
      unitize_length_eq_one _ hcne
    have hdot : (unitize ed).dot (unitize (Vec3.cross ⟨0, 1, 0⟩ (unitize ed))) = 0 := by
      rw [Vec3.dot_unitize, Vec3.dot_cross_right, zero_div]
    have heyne := cross_unit_orth_ne_zero _ _ hezu hexu hdot
    rw [Vec3.normalize_eq_unitize _ heyne]
    exact makeBasis_apply _ _ _
  · rw [if_neg hc, if_neg hc]
    have hcne := cross_worldZ_ne_zero (unitize ed) hc
    rw [Vec3.normalize_eq_unitize _ hcne]
    have hexu : (unitize (Vec3.cross ⟨0, 0, 1⟩ (unitize ed))).length = 1 :=
      unitize_length_eq_one _ hcne
    have hdot : (unitize ed).dot (unitize (Vec3.cross ⟨0, 0, 1⟩ (unitize ed))) = 0 := by
      rw [Vec3.dot_unitize, Vec3.dot_cross_right, zero_div]
    have heyne := cross_unit_orth_ne_zero _ _ hezu hexu hdot
    rw [Vec3.normalize_eq_unitize _ heyne]
    exact makeBasis_apply _ _ _

end Dwg

namespace Dwg

/-- C7 (witness): the arbitrary-axis column theorem applied to the
default extrusion `(0, 0, 1)`. -/
theorem C7_arbitrary_axis_columns_witness : arbitraryAxisColumnsSpec ⟨0, 0, 1⟩ :=
  C7_arbitrary_axis_columns ⟨0, 0, 1⟩ (by simp)

end Dwg

namespace Dwg

noncomputable section BulgeArc

/-- Vertex of a lightweight polyline as read by `interpolateBulge`; the
JavaScript guards `x || 0` and `y || 0` are the identity on every number,
so the coordinates are plain reals. -/
structure LWVertex where
  x : ℝ
  y : ℝ

/-- JavaScript `Math.atan2` (positive-x: plain arctangent; negative-x:
shifted by pi toward the sign of y; zero-x: right angles). -/
def atan2 (y x : ℝ) : ℝ :=
  if 0 < x then Real.arctan (y / x)
  else if x < 0 then
    (if 0 ≤ y then Real.arctan (y / x) + Real.pi else Real.arctan (y / x) - Real.pi)
  else if 0 < y then Real.pi / 2
  else if y < 0 then -(Real.pi / 2)
  else 0

/-- From `PolylineDrawer.interpolateBulge`: reconstruct the circular arc
encoded by a chord and a bulge value and emit the interior sample points.
Empty below the chord-length epsilon; otherwise the central angle is
`4 * arctan |bulge|`, the center sits at the chord midpoint offset along
the left normal by the signed apothem, and `segments - 1` interior points
are emitted, evenly spaced in angle from the start angle. -/
def interpolateBulge (scaleFactor : ℝ) (start endv : LWVertex) (bulge elevation : ℝ) :
    List Vec3 :=
  let z := elevation * scaleFactor
  let startX := start.x * scaleFactor
  let startY := start.y * scaleFactor
  let endX := endv.x * scaleFactor
  let endY := endv.y * scaleFactor
  let dx := endX - startX
  let dy := endY - startY
  let chordLength := Real.sqrt (dx * dx + dy * dy)
  if chordLength < 1e-6 then []
  else
    let theta := 4 * Real.arctan |bulge|
    let radius := chordLength / (2 * Real.sin (theta / 2))
    let midX := (startX + endX) / 2
    let midY := (startY + endY) / 2
    let sagitta := radius * (1 - Real.cos (theta / 2))
    let apothemLength := radius - sagitta
    let nx := -dy / chordLength
    let ny := dx / chordLength
    let sign : ℝ := if 0 < bulge then 1 else -1
    let cx := midX + sign * apothemLength * nx
    let cy := midY + sign * apothemLength * ny
    let startAngle := atan2 (startY - cy) (startX - cx)
    let segments : ℤ := max 8 ⌈|theta| * 10⌉
    let angleStep := (if 0 < bulge then 1 else -1) * theta / (segments : ℝ)
    (List.range (segments - 1).toNat).map fun k =>
      let angle := startAngle + ((k : ℝ) + 1) * angleStep
      (⟨cx + radius * Real.cos angle, cy + radius * Real.sin angle, z⟩ : Vec3)

end BulgeArc

/-- C5: at unit scale factor, the bulge-1 chord from the origin to
`(10, 0)` tessellates to the interior samples of a semicircle: the list is
exactly the 31 points at angles `pi + i * pi / 32` (`i = 1..31`) on the
circle of radius 5 centered at `(5, 0)` (so theta is pi and the step count
is `max 8 (ceil (pi * 10)) = 32`), and every emitted point lies at squared
distance 25 from the center `(5, 0)`. -/
theorem C5_bulge_semicircle :
    interpolateBulge 1 ⟨0, 0⟩ ⟨10, 0⟩ 1 0 =
      (List.range 31).map (fun (k : ℕ) =>
        (⟨5 + 5 * Real.cos (Real.pi + ((k : ℝ) + 1) * (Real.pi / 32)),
          5 * Real.sin (Real.pi + ((k : ℝ) + 1) * (Real.pi / 32)), 0⟩ : Vec3)) ∧
      (interpolateBulge 1 ⟨0, 0⟩ ⟨10, 0⟩ 1 0).length = 31 ∧
      (interpolateBulge 1 ⟨0, 0⟩ ⟨10, 0⟩ 1 0).map
          (fun p => (p.x - 5) ^ 2 + (p.y - 0) ^ 2) =
        List.replicate 31 25 := by
  have hmain : interpolateBulge 1 ⟨0, 0⟩ ⟨10, 0⟩ 1 0 =
      (List.range 31).map (fun (k : ℕ) =>
        (⟨5 + 5 * Real.cos (Real.pi + ((k : ℝ) + 1) * (Real.pi / 32)),
          5 * Real.sin (Real.pi + ((k : ℝ) + 1) * (Real.pi / 32)), 0⟩ : Vec3)) := by
    unfold interpolateBulge
    norm_num
    have hpi : (4 : ℝ) * (Real.pi / 4) = Real.pi := by ring
    rw [hpi]
    have hs : Real.sqrt (100 : ℝ) = 10 := by
      rw [show (100 : ℝ) = 10 ^ 2 by norm_num, Real.sqrt_sq (by norm_num : (0:ℝ) ≤ 10)]
    rw [hs]
    norm_num [Real.sin_pi_div_two, Real.cos_pi_div_two, abs_of_pos Real.pi_pos]
    have hceil : ⌈Real.pi * 10⌉ = (32 : ℤ) := by
      rw [Int.ceil_eq_iff]
      constructor
      · push_cast
        nlinarith [Real.pi_gt_d6]
      · push_cast
        nlinarith [Real.pi_lt_d2]
    rw [hceil]
    have hat : atan2 0 (-5 : ℝ) = Real.pi := by
      unfold atan2
      norm_num [Real.arctan_zero]
    rw [hat]
    norm_num [sup_eq_right]
    rw [show Int.toNat 32 - 1 = 31 from rfl]
    rw [(List.map_eq_flatMap (fun a => ((a : ℕ) : ℝ)) (List.range 31)).symm, List.map_map]
    rfl

  refine ⟨hmain, ?_, ?_⟩
  · rw [hmain]
    simp
  · rw [hmain, List.map_map]
    refine List.eq_replicate_iff.mpr ⟨by simp, ?_⟩
    intro b hb
    simp only [List.mem_map, List.mem_range, Function.comp] at hb
    obtain ⟨k, _, hk⟩ := hb
    rw [← hk]
    have hsc := Real.sin_sq_add_cos_sq (Real.pi + ((k : ℝ) + 1) * (Real.pi / 32))
    nlinarith [hsc]

end Dwg

namespace Dwg

namespace Spline

variable {K : Type} [LinearOrderedField K]

/-- Control or sample point of `SplineDrawer` (`{ x, y, z? }`; the
JavaScript guards `x || 0`, `y || 0`, `z || 0` are the identity on every
number, so the coordinates are plain field elements). -/
structure Pt (K : Type) where
  x : K
  y : K
  z : K
  deriving DecidableEq

/-- Scaling of a copied control point by the drawer's scale factor. -/
def scalePt (sf : K) (p : Pt K) : Pt K :=
  ⟨p.x * sf, p.y * sf, p.z * sf⟩

/-- Knot-vector read `knotVector[i]` at a (possibly integer-typed) index.
An out-of-range read yields `undefined`/`NaN` in JavaScript; it is
modelled as `0` here, and every theorem below keeps the indices used by
the algorithm in bounds. -/
def knotAt (knots : List K) (i : ℤ) : K :=
  knots.getD i.toNat 0

/-- From `SplineDrawer.deBoor`: the span-search loop, returning the first
`i` in `[degree, n]` with `knot[i] <= t < knot[i+1]`, or `degree` when the
loop finds none. -/
def findSpan (t : K) (knots : List K) (degree : ℕ) (n : ℤ) : ℤ :=
  match (List.range (Int.toNat (n - degree + 1))).find?
      (fun (o : ℕ) =>
        knotAt knots ((degree : ℤ) + (o : ℤ)) ≤ t ∧
          t < knotAt knots ((degree : ℤ) + (o : ℤ) + 1)) with
  | some o => (degree : ℤ) + (o : ℤ)
  | none => (degree : ℤ)

/-- The De Boor coefficient of round `r` at position `j`:
`alpha = (t - knot[i]) / (knot[i + degree - r + 1] - knot[i])`, guarded to
`0` when the denominator is within `1e-10` of zero. -/
def deBoorAlpha (t : K) (knots : List K) (degree : ℕ) (k : ℤ) (r j : ℕ) : K :=
  let i : ℤ := k - degree + j
  let denom := knotAt knots (i + degree - r + 1) - knotAt knots i
  if 1 / 10 ^ 10 < |denom| then (t - knotAt knots i) / denom else 0

/-- One blending round of `SplineDrawer.deBoor` (the inner
`for j = degree downto r` loop).  The loop runs `j` downwards, so the
update of `d[j]` reads the previous round's `d[j-1]` and `d[j]`; the round
is therefore a simultaneous map over the positions `r..degree`. -/
def deBoorRound (t : K) (knots : List K) (degree : ℕ) (k : ℤ) (r : ℕ)
    (d : ℕ → Pt K) : ℕ → Pt K :=
  fun j =>
    if r ≤ j ∧ j ≤ degree then
      let alpha := deBoorAlpha t knots degree k r j
      ⟨(1 - alpha) * (d (j - 1)).x + alpha * (d j).x,
        (1 - alpha) * (d (j - 1)).y + alpha * (d j).y,
        (1 - alpha) * (d (j - 1)).z + alpha * (d j).z⟩
    else d j

/-- The outer `for r = 1..degree` recursion of `SplineDrawer.deBoor`. -/
def deBoorRounds (t : K) (knots : List K) (degree : ℕ) (k : ℤ) :
    ℕ → (ℕ → Pt K) → (ℕ → Pt K)
  | 0, d => d
  | r + 1, d => deBoorRound t knots degree k (r + 1) (deBoorRounds t knots degree k r d)

/-- From `SplineDrawer.deBoor`: locate the knot span (with the boundary
override `k = n` when `t >= knot[n+1]`), copy the `degree + 1` locally
relevant control points (indices clamped to `[0, n]`), run the blending
rounds, and return `d[degree]`. -/
def deBoor (sf t : K) (cps : List (Pt K)) (knots : List K) (degree : ℕ) : Pt K :=
  let n : ℤ := (cps.length : ℤ) - 1
  let k0 : ℤ := findSpan t knots degree n
  let k : ℤ := if knotAt knots (n + 1) ≤ t then n else k0
  let d0 : ℕ → Pt K := fun j =>
    let idx : ℤ := max 0 (min n (k - degree + j))
    scalePt sf (cps.getD idx.toNat ⟨0, 0, 0⟩)
  deBoorRounds t knots degree k degree d0 degree

/-- From `SplineDrawer.linearInterpolate`: the scaled control polygon. -/
def linearInterpolate (sf : K) (cps : List (Pt K)) : List (Pt K) :=
  cps.map (scalePt sf)

/-- From `SplineDrawer.interpolateSpline`: `max 50 (10 n)` plus one
samples of the De Boor curve over the valid domain
`[knot[degree], knot[len - degree - 1]]`, falling back to the linear
interpolation of the control polygon when the domain is not positive. -/
def interpolateSpline (sf : K) (cps : List (Pt K)) (knots : List K) (degree : ℕ) :
    List (Pt K) :=
  let numSamples := max 50 (cps.length * 10)
  let tMin := knotAt knots degree
  let tMax := knotAt knots ((knots.length : ℤ) - degree - 1)
  if tMax ≤ tMin then linearInterpolate sf cps
  else
    (List.range (numSamples + 1)).map fun (i : ℕ) =>
      let t := tMin + (tMax - tMin) * (((i : ℕ) : K) / ((numSamples : ℕ) : K))
      deBoor sf t cps knots degree

/-- Clamped knot vector for `ncp` control points at the given degree:
the standard length relation, monotonicity, the first and the last knot
value each repeated with multiplicity exactly `degree + 1`. -/
def IsClamped (knots : List K) (degree ncp : ℕ) : Prop :=
  knots.length = ncp + degree + 1 ∧
    List.Chain' (· ≤ ·) knots ∧
    (∀ i, i < knots.length →
      (i ≤ degree → knots.getD i 0 = knots.getD 0 0) ∧
      (ncp ≤ i → knots.getD i 0 = knots.getD (knots.length - 1) 0)) ∧
    knots.getD degree 0 < knots.getD (degree + 1) 0 ∧
    knots.getD (ncp - 1) 0 < knots.getD ncp 0



end Spline

end Dwg

namespace Dwg

/-- C9: whenever the valid parametric domain
`[knot[degree], knot[len - degree - 1]]` has non-positive length (indices
in bounds), the spline evaluation does not fail: it returns the linear
interpolation of the control polygon, i.e. the scaled control points in
order. -/
theorem C9_invalid_domain_linear_fallback {K : Type} [LinearOrderedField K]
    (sf : K) (cps : List (Spline.Pt K)) (knots : List K) (degree : ℕ)
    (hb : degree + 1 ≤ knots.length)
    (hdom : Spline.knotAt knots ((knots.length : ℤ) - degree - 1) ≤
      Spline.knotAt knots degree) :
    Spline.interpolateSpline sf cps knots degree = cps.map (Spline.scalePt sf) := by
  unfold Spline.interpolateSpline
  rw [if_pos hdom]
  rfl

/-- C9 (witness): a degree-1 spline over the all-zero knot vector falls
back to the scaled control polygon. -/
theorem C9_invalid_domain_linear_fallback_witness :
    Spline.interpolateSpline (2 : ℚ) [⟨1, 2, 3⟩, ⟨4, 5, 6⟩] [0, 0, 0, 0] 1 =
      List.map (Spline.scalePt 2) [⟨1, 2, 3⟩, ⟨4, 5, 6⟩] :=
  C9_invalid_domain_linear_fallback 2 [⟨1, 2, 3⟩, ⟨4, 5, 6⟩] [0, 0, 0, 0] 1
    (by decide) (by decide)

/-- C6 (counterexample): the endpoint-interpolation claim fails on a
clamped knot vector whose last interior knot sits within the `1e-10`
zero-denominator guard of the domain end: for degree 1, control points
`(0,0,0), (100,0,0), (200,0,0)` and knots `[0, 0, 1 - 1e-11, 1, 1]`, the
guard zeroes the final blending coefficient and the last sampled point is
the middle control point, not the last one. -/
theorem C6_clamped_endpoint_counterexample :
    Spline.IsClamped ([0, 0, 1 - 1 / 10 ^ 11, 1, 1] : List ℚ) 1 3 ∧
      (Spline.interpolateSpline (1 : ℚ) [⟨0, 0, 0⟩, ⟨100, 0, 0⟩, ⟨200, 0, 0⟩]
          [0, 0, 1 - 1 / 10 ^ 11, 1, 1] 1).getLast? = some ⟨100, 0, 0⟩ ∧
      (⟨100, 0, 0⟩ : Spline.Pt ℚ) ≠ ⟨200, 0, 0⟩ := by
  refine ⟨⟨rfl, ?_, ?_, ?_, ?_⟩, ?_, ?_⟩
  · norm_num [List.chain'_cons, List.chain'_singleton]
  · intro i hi
    have hi5 : i < 5 := by simpa using hi
    clear hi
    constructor <;> intro hcond <;> interval_cases i <;>
      simp_all [List.getD_cons_zero, List.getD_cons_succ]
  · norm_num
  · norm_num
  · rw [Spline.interpolateSpline]
    norm_num [Spline.knotAt, List.getD]
    simp only [show Int.toNat 3 = 3 from rfl]
    norm_num [List.getElem_cons_succ, List.getElem_cons_zero]
    refine ⟨50, ?_, ?_⟩
    · rw [List.range_succ, List.getLast?_concat]
    · rw [show (((50 : ℕ) : ℚ) / 50) = 1 by norm_num]
      rw [Spline.deBoor]
      norm_num [Spline.knotAt, Spline.findSpan, List.getD]
      simp only [show Int.toNat 3 = 3 from rfl, show Int.toNat 2 = 2 from rfl]
      norm_num [List.getElem_cons_succ, List.getElem_cons_zero]
      simp only [Spline.deBoorRounds]
      norm_num [Spline.deBoorRound, Spline.deBoorAlpha, Spline.knotAt, Spline.scalePt,
        List.getD, List.getElem_cons_succ, List.getElem_cons_zero, Spline.Pt.mk.injEq]
      simp only [show Int.toNat 3 = 3 from rfl, show Int.toNat 2 = 2 from rfl]
      norm_num [List.getElem_cons_succ, List.getElem_cons_zero, abs, max_def]
  · intro h
    have := congrArg Spline.Pt.x h
    norm_num at this

end Dwg

namespace Dwg

namespace Spline

variable {K : Type} [LinearOrderedField K]

theorem Pt.ext {a b : Pt K} (hx : a.x = b.x) (hy : a.y = b.y) (hz : a.z = b.z) :
    a = b := by
  cases a
  cases b
  simp_all

theorem knotAt_coe (knots : List K) (m : ℕ) : knotAt knots (m : ℤ) = knots.getD m 0 := by
  simp [knotAt]

/-- Monotone knot vectors read monotonically through `getD`. -/
theorem chain_getD_mono (knots : List K) (hm : List.Chain' (· ≤ ·) knots) {i j : ℕ}
    (hij : i ≤ j) (hj : j < knots.length) : knots.getD i 0 ≤ knots.getD j 0 := by
  have hi : i < knots.length := lt_of_le_of_lt hij hj
  rw [List.getD_eq_getElem _ _ hi, List.getD_eq_getElem _ _ hj]
  rcases eq_or_lt_of_le hij with rfl | hlt
  · exact le_refl _
  · exact List.pairwise_iff_getElem.mp (List.chain'_iff_pairwise.mp hm) i j hi hj hlt

/-- When the numerator `t - knot[i]` vanishes, the De Boor coefficient is
zero whichever branch of the degeneracy guard is taken. -/
theorem deBoorAlpha_eq_zero (t : K) (knots : List K) (degree : ℕ) (k : ℤ) (r j : ℕ)
    (hnum : t - knotAt knots (k - degree + j) = 0) :
    deBoorAlpha t knots degree k r j = 0 := by
  unfold deBoorAlpha
  dsimp only
  rw [hnum]
  split <;> simp [zero_div]

/-- When the relevant knot span ends at `t` and exceeds the degeneracy
guard, the De Boor coefficient is one. -/
theorem deBoorAlpha_eq_one (t : K) (knots : List K) (degree : ℕ) (k : ℤ) (r j : ℕ)
    (hend : knotAt knots (k - degree + j + degree - r + 1) = t)
    (hgap : 1 / 10 ^ 10 < t - knotAt knots (k - degree + j)) :
    deBoorAlpha t knots degree k r j = 1 := by
  unfold deBoorAlpha
  dsimp only
  have hpos : (0 : K) < t - knotAt knots (k - degree + j) := by
    calc (0 : K) < 1 / 10 ^ 10 := by positivity
    _ < _ := hgap
  rw [hend, if_pos (by rw [abs_of_pos hpos]; exact hgap)]
  exact div_self (ne_of_gt hpos)

/-- A round acts as a shift at positions where the coefficient is zero. -/
theorem deBoorRound_apply_zero (t : K) (knots : List K) (degree : ℕ) (k : ℤ) (r : ℕ)
    (d : ℕ → Pt K) (j : ℕ) (hr : r ≤ j) (hj : j ≤ degree)
    (ha : deBoorAlpha t knots degree k r j = 0) :
    deBoorRound t knots degree k r d j = d (j - 1) := by
  unfold deBoorRound
  rw [if_pos ⟨hr, hj⟩]
  refine Pt.ext ?_ ?_ ?_ <;> simp [ha]

/-- A round acts as the identity at positions where the coefficient is
one. -/
theorem deBoorRound_apply_one (t : K) (knots : List K) (degree : ℕ) (k : ℤ) (r : ℕ)
    (d : ℕ → Pt K) (j : ℕ) (hr : r ≤ j) (hj : j ≤ degree)
    (ha : deBoorAlpha t knots degree k r j = 1) :
    deBoorRound t knots degree k r d j = d j := by
  unfold deBoorRound
  rw [if_pos ⟨hr, hj⟩]
  refine Pt.ext ?_ ?_ ?_ <;> simp [ha]

/-- A round never touches positions outside `[r, degree]`. -/
theorem deBoorRound_apply_out (t : K) (knots : List K) (degree : ℕ) (k : ℤ) (r : ℕ)
    (d : ℕ → Pt K) (j : ℕ) (h : ¬(r ≤ j ∧ j ≤ degree)) :
    deBoorRound t knots degree k r d j = d j := by
  unfold deBoorRound
  rw [if_neg h]

/-- With all coefficients zero, `r` rounds shift the initial vector by
`r` positions. -/
theorem deBoorRounds_all_zero (t : K) (knots : List K) (degree : ℕ) (k : ℤ)
    (d : ℕ → Pt K)
    (ha : ∀ r j, 1 ≤ r → r ≤ j → j ≤ degree → deBoorAlpha t knots degree k r j = 0) :
    ∀ r, r ≤ degree → ∀ j, r ≤ j → j ≤ degree →
      deBoorRounds t knots degree k r d j = d (j - r) := by
  intro r
  induction r with
  | zero => intro _ j _ _; simp [deBoorRounds]
  | succ r ih =>
    intro hrd j hrj hjd
    show deBoorRound t knots degree k (r + 1) (deBoorRounds t knots degree k r d) j = _
    rw [deBoorRound_apply_zero t knots degree k (r + 1) _ j hrj hjd
      (ha (r + 1) j (Nat.succ_le_succ (Nat.zero_le r)) hrj hjd)]
    rw [ih (Nat.le_of_succ_le hrd) (j - 1) (by omega) (by omega)]
    congr 1
    omega

/-- With all coefficients one, the rounds leave the initial vector
unchanged on `[0, degree]`. -/
theorem deBoorRounds_all_one (t : K) (knots : List K) (degree : ℕ) (k : ℤ)
    (d : ℕ → Pt K)
    (ha : ∀ r j, 1 ≤ r → r ≤ j → j ≤ degree → deBoorAlpha t knots degree k r j = 1) :
    ∀ r, r ≤ degree → ∀ j, j ≤ degree →
      deBoorRounds t knots degree k r d j = d j := by
  intro r
  induction r with
  | zero => intro _ j _; simp [deBoorRounds]
  | succ r ih =>
    intro hrd j hjd
    show deBoorRound t knots degree k (r + 1) (deBoorRounds t knots degree k r d) j = _
    by_cases hin : r + 1 ≤ j ∧ j ≤ degree
    · rw [deBoorRound_apply_one t knots degree k (r + 1) _ j hin.1 hin.2
        (ha (r + 1) j (Nat.succ_le_succ (Nat.zero_le r)) hin.1 hin.2)]
      exact ih (Nat.le_of_succ_le hrd) j hjd
    · rw [deBoorRound_apply_out t knots degree k (r + 1) _ j hin]
      exact ih (Nat.le_of_succ_le hrd) j hjd

/-- Exact end multiplicities force the degree below the control-point
count. -/
theorem IsClamped.degree_lt {knots : List K} {degree ncp : ℕ}
    (hc : IsClamped knots degree ncp) : degree < ncp := by
  obtain ⟨hlen, hmono, hvals, hsl, hsh⟩ := hc
  by_contra hge
  push_neg at hge
  have h1 := (hvals (ncp - 1) (by omega)).1 (by omega)
  have h2 := (hvals ncp (by omega)).1 (by omega)
  rw [h1, h2] at hsh
  exact lt_irrefl _ hsh

/-- All leading knots equal `knot[degree]`. -/
theorem IsClamped.getD_lo {knots : List K} {degree ncp : ℕ}
    (hc : IsClamped knots degree ncp) {i : ℕ} (hi : i ≤ degree) :
    knots.getD i 0 = knots.getD degree 0 := by
  obtain ⟨hlen, hmono, hvals, hsl, hsh⟩ := hc
  have h1 := (hvals i (by omega)).1 hi
  have h2 := (hvals degree (by omega)).1 (le_refl degree)
  rw [h1, h2]

/-- All trailing knots equal `knot[ncp]`. -/
theorem IsClamped.getD_hi {knots : List K} {degree ncp : ℕ}
    (hc : IsClamped knots degree ncp) {i : ℕ} (h1 : ncp ≤ i) (h2 : i < knots.length) :
    knots.getD i 0 = knots.getD ncp 0 := by
  obtain ⟨hlen, hmono, hvals, hsl, hsh⟩ := hc
  have ha := (hvals i h2).2 h1
  have hb := (hvals ncp (by omega)).2 (le_refl ncp)
  rw [ha, hb]

/-- The clamped domain has positive length. -/
theorem IsClamped.tMin_lt_tMax {knots : List K} {degree ncp : ℕ}
    (hc : IsClamped knots degree ncp) :
    knots.getD degree 0 < knots.getD ncp 0 := by
  have hdl := hc.degree_lt
  obtain ⟨hlen, hmono, hvals, hsl, hsh⟩ := hc
  calc knots.getD degree 0 ≤ knots.getD (ncp - 1) 0 :=
        chain_getD_mono knots hmono (by omega) (by omega)
    _ < knots.getD ncp 0 := hsh

/-- Evaluating the De Boor recursion at the left domain end of a clamped
knot vector yields the scaled first control point: the span search stops
at `k = degree`, every blending coefficient vanishes, and the rounds
shift `d` down to its first entry. -/
theorem deBoor_at_tMin (sf : K) (cps : List (Pt K)) (knots : List K) (degree : ℕ)
    (hc : IsClamped knots degree cps.length) (h1 : 1 ≤ cps.length) :
    deBoor sf (knots.getD degree 0) cps knots degree =
      scalePt sf (cps.getD 0 ⟨0, 0, 0⟩) := by
  have hdl := hc.degree_lt
  have hlen := hc.1
  have hsl := hc.2.2.2.1
  have hspan : findSpan (knots.getD degree 0) knots degree ((cps.length : ℤ) - 1) =
      (degree : ℤ) := by
    unfold findSpan
    have hcnt : Int.toNat ((cps.length : ℤ) - 1 - degree + 1) =
        (cps.length - degree - 1) + 1 := by omega
    rw [hcnt, List.range_succ_eq_map]
    rw [List.find?_cons_of_pos]
    · simp
    · have hz1 : ((degree : ℤ) + ((0 : ℕ) : ℤ) + 1) = (((degree + 1 : ℕ)) : ℤ) := by
        push_cast
        ring
      have hz : ((degree : ℤ) + ((0 : ℕ) : ℤ)) = ((degree : ℕ) : ℤ) := by
        push_cast
        ring
      rw [hz1, hz, knotAt_coe, knotAt_coe]
      simp only [le_refl, true_and, decide_eq_true_eq]
      exact hsl
  have hk : (if knotAt knots (((cps.length : ℤ) - 1) + 1) ≤ knots.getD degree 0 then
      ((cps.length : ℤ) - 1)
    else findSpan (knots.getD degree 0) knots degree ((cps.length : ℤ) - 1)) =
      (degree : ℤ) := by
    have hn1 : ((cps.length : ℤ) - 1) + 1 = ((cps.length : ℕ) : ℤ) := by ring
    rw [hn1, knotAt_coe, if_neg (not_le.mpr hc.tMin_lt_tMax), hspan]
  unfold deBoor
  dsimp only
  simp only [hk]
  have ha : ∀ r j, 1 ≤ r → r ≤ j → j ≤ degree →
      deBoorAlpha (knots.getD degree 0) knots degree (degree : ℤ) r j = 0 := by
    intro r j _ _ hjd
    apply deBoorAlpha_eq_zero
    have hz : ((degree : ℤ) - degree + j) = ((j : ℕ) : ℤ) := by omega
    rw [hz, knotAt_coe, hc.getD_lo hjd, sub_self]
  rw [deBoorRounds_all_zero _ _ _ _ _ ha degree (le_refl _) degree (le_refl _) (le_refl _)]
  have hidx : (Int.toNat (max 0 (min ((cps.length : ℤ) - 1)
      ((degree : ℤ) - ↑degree + ↑(degree - degree))))) = 0 := by omega
  rw [hidx]

/-- Evaluating the De Boor recursion at the right domain end of a clamped
knot vector whose last knot span exceeds the `1e-10` degeneracy guard
yields the scaled last control point: the boundary override selects
`k = n`, every blending coefficient is one, and the rounds leave the
last entry untouched. -/
theorem deBoor_at_tMax (sf : K) (cps : List (Pt K)) (knots : List K) (degree : ℕ)
    (hc : IsClamped knots degree cps.length) (h1 : 1 ≤ cps.length)
    (hm : 1 / 10 ^ 10 < knots.getD cps.length 0 - knots.getD (cps.length - 1) 0) :
    deBoor sf (knots.getD cps.length 0) cps knots degree =
      scalePt sf (cps.getD (cps.length - 1) ⟨0, 0, 0⟩) := by
  have hdl := hc.degree_lt
  have hlen := hc.1
  have hmono := hc.2.1
  have hk : (if knotAt knots (((cps.length : ℤ) - 1) + 1) ≤ knots.getD cps.length 0 then
      ((cps.length : ℤ) - 1)
    else findSpan (knots.getD cps.length 0) knots degree ((cps.length : ℤ) - 1)) =
      ((cps.length : ℤ) - 1) := by
    have hn1 : ((cps.length : ℤ) - 1) + 1 = ((cps.length : ℕ) : ℤ) := by ring
    rw [hn1, knotAt_coe, if_pos (le_refl _)]
  unfold deBoor
  dsimp only
  simp only [hk]
  have ha : ∀ r j, 1 ≤ r → r ≤ j → j ≤ degree →
      deBoorAlpha (knots.getD cps.length 0) knots degree ((cps.length : ℤ) - 1) r j = 1 := by
    intro r j hr hrj hjd
    apply deBoorAlpha_eq_one
    · have hz : ((cps.length : ℤ) - 1 - degree + j + degree - r + 1) =
          (((cps.length + (j - r) : ℕ)) : ℤ) := by omega
      rw [hz, knotAt_coe]
      exact hc.getD_hi (by omega) (by omega)
    · have hz : ((cps.length : ℤ) - 1 - degree + j) =
          (((cps.length - 1 - degree + j : ℕ)) : ℤ) := by omega
      rw [hz, knotAt_coe]
      have hle : knots.getD (cps.length - 1 - degree + j) 0 ≤
          knots.getD (cps.length - 1) 0 :=
        chain_getD_mono knots hmono (by omega) (by omega)
      calc 1 / 10 ^ 10
          < knots.getD cps.length 0 - knots.getD (cps.length - 1) 0 := hm
        _ ≤ _ := by linarith
  rw [deBoorRounds_all_one _ _ _ _ _ ha degree (le_refl _) degree (le_refl _)]
  have hidx : (Int.toNat (max 0 (min ((cps.length : ℤ) - 1)
      ((cps.length : ℤ) - 1 - ↑degree + ↑degree)))) = cps.length - 1 := by omega
  rw [hidx]

end Spline

set_option linter.unusedVariables false in
/-- C6 (amended): for every spline with at least two control points over
a clamped knot vector, provided additionally that the final knot span
exceeds the `1e-10` zero-denominator guard of the De Boor blending, the
sample list has the requested count plus one points, its first point is
the scaled first control point and its last point is the scaled last
control point (exactly, in the idealized arithmetic). -/
theorem C6_clamped_endpoints_amended {K : Type} [LinearOrderedField K]
    (sf : K) (cps : List (Spline.Pt K)) (knots : List K) (degree : ℕ)
    (hc : Spline.IsClamped knots degree cps.length) (h2 : 2 ≤ cps.length)
    (hm : 1 / 10 ^ 10 < knots.getD cps.length 0 - knots.getD (cps.length - 1) 0) :
    (Spline.interpolateSpline sf cps knots degree).length =
        max 50 (cps.length * 10) + 1 ∧
      (Spline.interpolateSpline sf cps knots degree).head? =
        some (Spline.scalePt sf (cps.getD 0 ⟨0, 0, 0⟩)) ∧
      (Spline.interpolateSpline sf cps knots degree).getLast? =
        some (Spline.scalePt sf (cps.getD (cps.length - 1) ⟨0, 0, 0⟩)) := by
  have hdl := hc.degree_lt
  have hlen := hc.1
  have h1 : 1 ≤ cps.length := by omega
  have hzmax : ((knots.length : ℤ) - degree - 1) = ((cps.length : ℕ) : ℤ) := by omega
  have htlt := hc.tMin_lt_tMax
  unfold Spline.interpolateSpline
  dsimp only
  simp only [hzmax, Spline.knotAt_coe]
  rw [if_neg (not_le.mpr htlt)]
  refine ⟨by simp, ?_, ?_⟩
  · rw [List.range_succ_eq_map, List.map_cons, List.head?_cons]
    congr 1
    dsimp only
    have ht0 : knots.getD degree 0 + (knots.getD cps.length 0 - knots.getD degree 0) *
        ((((0 : ℕ) : K)) / (((max 50 (cps.length * 10) : ℕ)) : K)) =
        knots.getD degree 0 := by
      rw [Nat.cast_zero, zero_div, mul_zero, add_zero]
    rw [ht0]
    exact Spline.deBoor_at_tMin sf cps knots degree hc h1
  · rw [List.range_succ, List.map_append]
    simp only [List.map_cons, List.map_nil]
    rw [List.getLast?_concat]
    congr 1
    dsimp only
    have hN0 : max 50 (cps.length * 10) ≠ 0 := by
      have h50 : (50 : ℕ) ≤ max 50 (cps.length * 10) := le_max_left _ _
      omega
    have hN : (((max 50 (cps.length * 10) : ℕ)) : K) ≠ 0 := Nat.cast_ne_zero.mpr hN0
    have htN : knots.getD degree 0 + (knots.getD cps.length 0 - knots.getD degree 0) *
        ((((max 50 (cps.length * 10) : ℕ)) : K) /
          (((max 50 (cps.length * 10) : ℕ)) : K)) = knots.getD cps.length 0 := by
      rw [div_self hN]
      ring
    rw [htN]
    exact Spline.deBoor_at_tMax sf cps knots degree hc h1 hm

/-- C6 (witness): the amended endpoint theorem applied to a concrete
degree-1 spline with two control points and scale factor 3. -/
theorem C6_clamped_endpoints_amended_witness :
    (Spline.interpolateSpline (3 : ℚ) [⟨0, 0, 0⟩, ⟨7, 0, 0⟩] [0, 0, 1, 1] 1).length =
        max 50 (([⟨0, 0, 0⟩, ⟨7, 0, 0⟩] : List (Spline.Pt ℚ)).length * 10) + 1 ∧
      (Spline.interpolateSpline (3 : ℚ) [⟨0, 0, 0⟩, ⟨7, 0, 0⟩] [0, 0, 1, 1] 1).head? =
        some (Spline.scalePt 3
          (([⟨0, 0, 0⟩, ⟨7, 0, 0⟩] : List (Spline.Pt ℚ)).getD 0 ⟨0, 0, 0⟩)) ∧
      (Spline.interpolateSpline (3 : ℚ) [⟨0, 0, 0⟩, ⟨7, 0, 0⟩] [0, 0, 1, 1] 1).getLast? =
        some (Spline.scalePt 3
          (([⟨0, 0, 0⟩, ⟨7, 0, 0⟩] : List (Spline.Pt ℚ)).getD
            (([⟨0, 0, 0⟩, ⟨7, 0, 0⟩] : List (Spline.Pt ℚ)).length - 1) ⟨0, 0, 0⟩)) :=
  C6_clamped_endpoints_amended 3 [⟨0, 0, 0⟩, ⟨7, 0, 0⟩] [0, 0, 1, 1] 1
    (by refine ⟨rfl, ?_, ?_, ?_, ?_⟩ <;> norm_num [List.chain'_cons, List.getD] <;>
      (intro i hi; interval_cases i <;> simp))
    (by norm_num) (by norm_num [List.getD])

namespace Spline

end Spline

end Dwg

namespace Dwg

namespace BlockRecursion

/-- Entity skeleton for the dispatch/recursion model of
`ViewportDraw.createEntityFromDrawers` and `InsertDrawer.draw`: the
run-time type tag and, for INSERT entities, the referenced block name.
Geometry and attribute fields do not influence the recursion structure. -/
structure Entity where
  type : String
  name : String
  deriving DecidableEq

/-- The block table handed to `InsertDrawer`
(`blocks : Map<string, DwgEntity[]>`). -/
structure Doc where
  blocks : List (String × List Entity)

/-- Block lookup of `InsertDrawer.draw`: exact match first, then the
case-insensitive scan over the table entries. -/
def lookupBlock (doc : Doc) (nm : String) : Option (List Entity) :=
  match doc.blocks.find? (fun p => p.1 = nm) with
  | some p => some p.2
  | none =>
    (doc.blocks.find? (fun p => p.1.toLower = nm.toLower)).map (fun p => p.2)

/-- Resolved scene-object skeleton (a `THREE.Object3D` tree): leaf
geometry, the missing-block placeholder, or an INSERT group. -/
inductive RObj where
  | leaf : RObj
  | placeholder : String → RObj
  | group : List RObj → RObj

/-- Outcome of resolving one entity with an explicit call-depth bound.
The source has no recursion guard of its own (no in-progress block set),
so the model makes the call depth explicit: `fuelExhausted` reports that
the computation needs more nesting depth than the bound — for every
bound, in the case of a cyclic block table. -/
inductive RResult where
  | ok : RObj → RResult
  | fuelExhausted : RResult

/-- Conversion used by the children loop: a completed child yields its
object, a depth overflow propagates. -/
def RResult.toOption : RResult → Option RObj
  | .ok o => some o
  | .fuelExhausted => none

/-- Depth-bounded model of the mutual recursion
`createEntityFromDrawers → InsertDrawer.draw → drawBlockEntities →
delegate.createEntityObject → createEntityFromDrawers`: an INSERT looks
up its block (placeholder when missing) and resolves every child at one
deeper nesting level; every other entity type resolves without
recursion.  The propagation of `fuelExhausted` models the depth
requirement of the subtree, not the runtime's exception handling. -/
def drawEntityFuel : ℕ → Doc → Entity → RResult
  | 0, _, _ => .fuelExhausted
  | fuel + 1, doc, e =>
    if e.type = "INSERT" then
      match lookupBlock doc e.name with
      | none => .ok (.group [.placeholder e.name])
      | some children =>
        match children.mapM (fun c => (drawEntityFuel fuel doc c).toOption) with
        | some objs => .ok (.group objs)
        | none => .fuelExhausted
    else .ok .leaf

/-- A two-block cyclic document: block A inserts block B and block B
inserts block A. -/
def cyclicDoc : Doc :=
  ⟨[("A", [⟨"INSERT", "B"⟩]), ("B", [⟨"INSERT", "A"⟩])]⟩

end BlockRecursion

/-- C2: the code has no cyclic-reference guard.  On the cyclic document
`A → B → A`, resolving the INSERT of A (or of B) exhausts every
call-depth bound: the recursion is unbounded and no cyclic-reference
diagnostic exists in the code.  (At runtime the engine's stack limit
aborts the subtree with an exception that the per-entity catch turns
into a skipped subtree.) -/
theorem C2_cyclic_insert_unbounded :
    ∀ fuel : ℕ,
      BlockRecursion.drawEntityFuel fuel BlockRecursion.cyclicDoc ⟨"INSERT", "A"⟩ =
          .fuelExhausted ∧
        BlockRecursion.drawEntityFuel fuel BlockRecursion.cyclicDoc ⟨"INSERT", "B"⟩ =
          .fuelExhausted := by
  intro fuel
  induction fuel with
  | zero => exact ⟨rfl, rfl⟩
  | succ n ih =>
    have ihA := ih.1
    have ihB := ih.2
    simp only [BlockRecursion.cyclicDoc] at ihA ihB
    refine ⟨?_, ?_⟩ <;>
      simp [BlockRecursion.drawEntityFuel, BlockRecursion.lookupBlock,
        BlockRecursion.cyclicDoc, List.find?, ihA, ihB, BlockRecursion.RResult.toOption,
        List.mapM, List.mapM.loop]

end Dwg

namespace Dwg

namespace ViewportDraw

/-- Draw context as seen by `createEntityFromDrawers`: the BYBLOCK
inherited color plus an abstract bundle `rest` standing for every other
`DrawContext` field (scale factor, layer map, line types, dimension
styles, accumulated transform, ...). -/
structure Ctx (ρ : Type) where
  inheritedColor : Option Int
  rest : ρ

/-- A registered drawer: the `canDraw` predicate and the `draw` method.
`draw` runs against the shared context object, so it is modelled as a
state transformer returning the produced object (`none` models a null
return), or an error for a thrown exception; in both cases it also
returns the context state it leaves behind, because a JavaScript
exception does not undo mutations already made. -/
structure Drawer (ε ρ ω : Type) where
  canDraw : ε → Bool
  draw : ε → Ctx ρ → (Except Unit (Option ω)) × Ctx ρ

/-- The dispatch loop of `createEntityFromDrawers` over the registered
drawers, with the restore write
`this.drawContext.inheritedColor = prevInheritedColor` on each of the
three exit paths (object returned, error caught, no drawer matched). -/
def dispatchLoop {ε ρ ω : Type} (prev : Option Int) (e : ε) :
    List (Drawer ε ρ ω) → Ctx ρ → Option ω × Ctx ρ
  | [], c => (none, { c with inheritedColor := prev })
  | d :: ds, c =>
    if d.canDraw e then
      match d.draw e c with
      | (Except.ok obj, c2) => (obj, { c2 with inheritedColor := prev })
      | (Except.error _, c2) => (none, { c2 with inheritedColor := prev })
    else dispatchLoop prev e ds c

/-- From `ViewportDraw.createEntityFromDrawers` (the source guards each
context access with `if (this.drawContext)`; the context is modelled as
present, since the drawers are only registered after it is assigned, and
with no context the function writes nothing at all): save the previous
inherited color, write the new one when supplied, dispatch to the first
accepting drawer, and restore the saved color on every exit path. -/
def createEntityFromDrawers {ε ρ ω : Type} (drawers : List (Drawer ε ρ ω)) (e : ε)
    (inheritedColor : Option Int) (ctx : Ctx ρ) : Option ω × Ctx ρ :=
  let prev := ctx.inheritedColor
  let ctx1 := match inheritedColor with
    | some ic => { ctx with inheritedColor := some ic }
    | none => ctx
  dispatchLoop prev e drawers ctx1

theorem dispatchLoop_restores {ε ρ ω : Type} (prev : Option Int) (e : ε)
    (ds : List (Drawer ε ρ ω)) (c : Ctx ρ) :
    ((dispatchLoop prev e ds c).2).inheritedColor = prev := by
  induction ds generalizing c with
  | nil => rfl
  | cons d ds ih =>
    show ((if d.canDraw e then _ else dispatchLoop prev e ds c) : Option ω × Ctx ρ).2.inheritedColor = prev
    split
    · rcases hd : d.draw e c with ⟨res, c2⟩
      cases res <;> simp [hd]
    · exact ih c

theorem dispatchLoop_frame {ε ρ ω : Type} (prev : Option Int) (e : ε)
    (ds : List (Drawer ε ρ ω)) (c : Ctx ρ)
    (hf : ∀ d ∈ ds, ∀ x c0, ((d.draw x c0).2).rest = c0.rest) :
    ((dispatchLoop prev e ds c).2).rest = c.rest := by
  induction ds generalizing c with
  | nil => rfl
  | cons d ds ih =>
    show ((if d.canDraw e then _ else dispatchLoop prev e ds c) : Option ω × Ctx ρ).2.rest = c.rest
    split
    · rcases hd : d.draw e c with ⟨res, c2⟩
      have := hf d (List.mem_cons_self d ds) e c
      rw [hd] at this
      cases res <;> simpa [hd] using this
    · exact ih c (fun d2 h2 => hf d2 (List.mem_cons_of_mem d h2))

end ViewportDraw

/-- C10: on every exit path of `createEntityFromDrawers` — a drawer
returned an object, a drawer threw, or no drawer accepted the entity —
the context's `inheritedColor` is restored to exactly its value before
the call; and the call changes no other context field, provided the
dispatched drawer's own `draw` leaves those fields as it found them
(which is how every drawer of the repository behaves, e.g. the
accumulated-transform save/restore in `InsertDrawer.draw`'s
`try/finally`). -/
theorem C10_inherited_color_restored {ε ρ ω : Type}
    (drawers : List (ViewportDraw.Drawer ε ρ ω)) (e : ε) (ic : Option Int)
    (ctx : ViewportDraw.Ctx ρ) :
    ((ViewportDraw.createEntityFromDrawers drawers e ic ctx).2).inheritedColor =
        ctx.inheritedColor ∧
      ((∀ d ∈ drawers, ∀ x c0, ((d.draw x c0).2).rest = c0.rest) →
        ((ViewportDraw.createEntityFromDrawers drawers e ic ctx).2).rest = ctx.rest) := by
  constructor
  · exact ViewportDraw.dispatchLoop_restores _ _ _ _
  · intro hf
    unfold ViewportDraw.createEntityFromDrawers
    dsimp only
    rw [ViewportDraw.dispatchLoop_frame _ _ _ _ hf]
    cases ic <;> rfl

/-- C10 (witness): a drawer that overwrites the inherited color and
returns an object still leaves the caller's context intact. -/
theorem C10_inherited_color_restored_witness :
    ((ViewportDraw.createEntityFromDrawers
          [⟨fun _ => true, fun _ c => (Except.ok (some 5), { c with inheritedColor := some 99 })⟩]
          (0 : ℕ) (some 42) (⟨some 7, 3⟩ : ViewportDraw.Ctx ℕ)).2).inheritedColor =
        (⟨some 7, 3⟩ : ViewportDraw.Ctx ℕ).inheritedColor ∧
      ((ViewportDraw.createEntityFromDrawers
          [⟨fun _ => true, fun _ c => ((Except.ok (some 5) : Except Unit (Option ℕ)),
            { c with inheritedColor := some 99 })⟩]
          (0 : ℕ) (some 42) (⟨some 7, 3⟩ : ViewportDraw.Ctx ℕ)).2).rest =
        (⟨some 7, 3⟩ : ViewportDraw.Ctx ℕ).rest :=
  ⟨(C10_inherited_color_restored _ 0 (some 42) ⟨some 7, 3⟩).1,
    (C10_inherited_color_restored _ 0 (some 42) ⟨some 7, 3⟩).2 (by
      intro d hd x c0
      simp only [List.mem_singleton] at hd
      subst hd
      rfl)⟩

end Dwg

namespace Dwg

namespace Nesting

variable {K : Type} [LinearOrderedField K]

/-- THREE.Vector2 as consumed by `NestedPolygonProcessor`. -/
structure P2 (K : Type) where
  x : K
  y : K
  deriving DecidableEq

/-- Bounding box of a polygon.  JavaScript initializes the fold with
infinities; an empty point list keeps them, which is modelled by `none`
(see `isPolygonInsidePolygon` for why the observable behavior agrees). -/
structure BBox (K : Type) where
  minX : K
  minY : K
  maxX : K
  maxY : K
  deriving DecidableEq

/-- The `NestedPolygon` record of `NestedPolygonProcessor`. -/
structure NestedPolygon (K : Type) where
  points : List (P2 K)
  signedArea : K
  bbox : Option (BBox K)
  nestLevel : ℕ
  parentIndex : ℤ
  childIndices : List ℕ
  shouldFill : Bool
  deriving DecidableEq

/-- Placeholder for out-of-range list reads (never reached under the
index discipline of the algorithm). -/
def dfltNP : NestedPolygon K :=
  { points := [], signedArea := 0, bbox := none, nestLevel := 0, parentIndex := -1,
    childIndices := [], shouldFill := true }

/-- In-place update of one array slot. -/
def modifyAt (l : List α) (i : ℕ) (f : α → α) : List α :=
  match l.get? i with
  | some a => l.set i (f a)
  | none => l

/-- From `cleanPolygonPoints`: drop points within `1e-4` of their
predecessor, then drop a trailing point that duplicates the head. -/
def cleanPolygonPoints (points : List (P2 K)) : List (P2 K) :=
  if points.length < 3 then points
  else
    let ε : K := 1 / 10 ^ 4
    let cleaned := points.foldl (fun acc current =>
      match acc.getLast? with
      | some last =>
        let dx := current.x - last.x
        let dy := current.y - last.y
        if dx * dx + dy * dy < ε * ε then acc else acc ++ [current]
      | none => acc ++ [current]) []
    if 1 < cleaned.length then
      let first := cleaned.getD 0 ⟨0, 0⟩
      let last := cleaned.getD (cleaned.length - 1) ⟨0, 0⟩
      let dx := first.x - last.x
      let dy := first.y - last.y
      if dx * dx + dy * dy < ε * ε then cleaned.dropLast else cleaned
    else cleaned

/-- From `calculateSignedArea`: the shoelace formula. -/
def calculateSignedArea (points : List (P2 K)) : K :=
  ((List.range points.length).foldl (fun area i =>
    let j := (i + 1) % points.length
    area + (points.getD i ⟨0, 0⟩).x * (points.getD j ⟨0, 0⟩).y
      - (points.getD j ⟨0, 0⟩).x * (points.getD i ⟨0, 0⟩).y) 0) / 2

/-- From `calculateBoundingBox`: fold of componentwise min/max.  The
infinite initial bounds mean the fold over a nonempty list starts
effectively from its first point; an empty list keeps the infinities,
modelled as `none`. -/
def calculateBoundingBox (points : List (P2 K)) : Option (BBox K) :=
  match points with
  | [] => none
  | p :: rest =>
    some (rest.foldl (fun bb q =>
      ⟨min bb.minX q.x, min bb.minY q.y, max bb.maxX q.x, max bb.maxY q.y⟩)
      ⟨p.x, p.y, p.x, p.y⟩)

/-- From `isPointInPolygon`: ray casting with the
`j = (i == 0) ? n - 1 : i - 1` predecessor pairing. -/
def isPointInPolygon (point : P2 K) (polygon : List (P2 K)) : Bool :=
  let n := polygon.length
  (List.range n).foldl (fun inside i =>
    let j := if i = 0 then n - 1 else i - 1
    let pi2 := polygon.getD i ⟨0, 0⟩
    let pj := polygon.getD j ⟨0, 0⟩
    if ((point.y < pi2.y) ≠ (point.y < pj.y)) ∧
        (point.x < (pj.x - pi2.x) * (point.y - pi2.y) / (pj.y - pi2.y) + pi2.x) then
      !inside
    else inside) false

/-- From `isPolygonInsidePolygon`: bounding-box rejection (with epsilon
`1e-6`) followed by a majority vote of ray casts over up to five sample
vertices of the candidate child.  When either polygon is empty the
JavaScript infinite box makes the test fail (rejection trips, or the
vote is over zero samples), hence the `none` cases answer `false`. -/
def isPolygonInsidePolygon (inner outer : NestedPolygon K) : Bool :=
  match inner.bbox, outer.bbox with
  | some bi, some bo =>
    let ε : K := 1 / 10 ^ 6
    if bi.minX < bo.minX - ε ∨ bi.maxX > bo.maxX + ε ∨
        bi.minY < bo.minY - ε ∨ bi.maxY > bo.maxY + ε then
      false
    else
      let sampleCount := min inner.points.length 5
      let step := max 1 (inner.points.length / sampleCount)
      let insideCount := ((List.range sampleCount).filter (fun i =>
        isPointInPolygon (inner.points.getD ((i * step) % inner.points.length) ⟨0, 0⟩)
          outer.points)).length
      decide ((sampleCount : K) / 2 < (insideCount : K))
  | _, _ => false

/-- Stable insertion of an index into a list of indices ordered by
absolute signed area descending (strict comparison keeps the original
relative order of ties, as the ECMAScript stable sort does). -/
def insertByArea (infos : List (NestedPolygon K)) (i : ℕ) : List ℕ → List ℕ
  | [] => [i]
  | j :: rest =>
    if |(infos.getD j dfltNP).signedArea| < |(infos.getD i dfltNP).signedArea| then
      i :: j :: rest
    else j :: insertByArea infos i rest

/-- The `sortedIndices` of `processPolygons`: the index list stably
sorted by absolute signed area descending. -/
def sortIndicesByAreaDesc (infos : List (NestedPolygon K)) : List ℕ :=
  (List.range infos.length).foldr (insertByArea infos) []

/-- From `buildNestingTree`: for each polygon in sorted order, its direct
parent is the already-placed polygon of smallest absolute area that
contains it (`Infinity` initial minimum modelled by `none`); ties keep
the earliest candidate (strict `<` update). -/
def buildNestingTree (infos : List (NestedPolygon K)) (sortedIndices : List ℕ) :
    List (NestedPolygon K) :=
  (List.range sortedIndices.length).foldl (fun polys i =>
    let currentIdx := sortedIndices.getD i 0
    let current := polys.getD currentIdx dfltNP
    let pick := (List.range i).foldl (fun (st : ℤ × Option K) j =>
      let candidateIdx := sortedIndices.getD j 0
      let candidate := polys.getD candidateIdx dfltNP
      if isPolygonInsidePolygon current candidate then
        let candidateArea := |candidate.signedArea|
        match st.2 with
        | none => ((candidateIdx : ℤ), some candidateArea)
        | some m =>
          if candidateArea < m then ((candidateIdx : ℤ), some candidateArea) else st
      else st) (-1, none)
    if pick.1 ≠ -1 then
      let polys2 := modifyAt polys currentIdx (fun p => { p with parentIndex := pick.1 })
      modifyAt polys2 pick.1.toNat (fun p =>
        { p with childIndices := p.childIndices ++ [currentIdx] })
    else polys) infos

/-- From `calculateNestLevels`: the recursive `setLevel`, with the call
depth made explicit (the source recursion terminates because the
containment forest only points from larger-area to strictly-later sorted
positions; the adequacy of the `polys.length` bound is part of the
theorems below). -/
def setLevelFuel : ℕ → List (NestedPolygon K) → ℕ → ℕ → List (NestedPolygon K)
  | 0, polys, _, _ => polys
  | fuel + 1, polys, idx, level =>
    let polys1 := modifyAt polys idx (fun p =>
      { p with nestLevel := level, shouldFill := level % 2 = 0 })
    ((polys1.getD idx dfltNP).childIndices).foldl
      (fun acc childIdx => setLevelFuel fuel acc childIdx (level + 1)) polys1

/-- From `calculateNestLevels`: run `setLevel` from every root (index
order), level 0. -/
def calculateNestLevels (polys : List (NestedPolygon K)) : List (NestedPolygon K) :=
  let roots := (List.range polys.length).filter
    (fun i => (polys.getD i dfltNP).parentIndex = -1)
  roots.foldl (fun acc r => setLevelFuel polys.length acc r 0) polys

/-- From `processPolygons`: clean and measure each loop, sort by area,
build the containment forest, and assign nest levels and fill parity. -/
def processPolygons (polygons : List (List (P2 K))) : List (NestedPolygon K) :=
  if polygons.length = 0 then []
  else
    let infos := polygons.map (fun points =>
      let cleaned := cleanPolygonPoints points
      ({ points := cleaned, signedArea := calculateSignedArea cleaned,
         bbox := calculateBoundingBox cleaned, nestLevel := 0, parentIndex := -1,
         childIndices := [], shouldFill := true } : NestedPolygon K))
    let sortedIndices := sortIndicesByAreaDesc infos
    calculateNestLevels (buildNestingTree infos sortedIndices)

end Nesting

end Dwg

namespace Dwg

namespace Nesting

variable {K : Type} [LinearOrderedField K]

theorem modifyAt_length {α : Type} (l : List α) (i : ℕ) (f : α → α) :
    (modifyAt l i f).length = l.length := by
  unfold modifyAt
  split
  · exact List.length_set l i _ ▸ rfl
  · rfl

theorem getD_modifyAt_self {α : Type} (l : List α) (i : ℕ) (f : α → α) (d : α)
    (h : i < l.length) : (modifyAt l i f).getD i d = f (l.getD i d) := by
  unfold modifyAt
  rcases hg : l.get? i with _ | a
  · rw [List.get?_eq_none] at hg
    omega
  · rw [List.get?_eq_getElem?] at hg
    rw [List.getD_eq_getElem?_getD, List.getD_eq_getElem?_getD, hg,
      List.getElem?_set_self' (l := l)]
    simp [hg]

theorem getD_modifyAt_ne {α : Type} (l : List α) (i m : ℕ) (f : α → α) (d : α)
    (h : i ≠ m) : (modifyAt l i f).getD m d = l.getD m d := by
  unfold modifyAt
  split
  · rw [List.getD_eq_getElem?_getD, List.getD_eq_getElem?_getD, List.getElem?_set_ne h]
  · rfl

theorem insertByArea_perm (infos : List (NestedPolygon K)) (i : ℕ) (l : List ℕ) :
    (insertByArea infos i l).Perm (i :: l) := by
  induction l with
  | nil => exact List.Perm.refl _
  | cons j rest ih =>
    unfold insertByArea
    split
    · exact List.Perm.refl _
    · exact (List.Perm.cons j ih).trans (List.Perm.swap i j rest)

theorem sortIndices_perm (infos : List (NestedPolygon K)) :
    (sortIndicesByAreaDesc infos).Perm (List.range infos.length) := by
  unfold sortIndicesByAreaDesc
  generalize List.range infos.length = l
  induction l with
  | nil => exact List.Perm.refl _
  | cons a l ih =>
    exact (insertByArea_perm infos a _).trans (List.Perm.cons a ih)

/-- Parent pointer of the fixed containment forest. -/
def parentT (T : List (NestedPolygon K)) (v : ℕ) : ℤ :=
  (T.getD v dfltNP).parentIndex

/-- Child list of the fixed containment forest. -/
def childrenT (T : List (NestedPolygon K)) (v : ℕ) : List ℕ :=
  (T.getD v dfltNP).childIndices

/-- Depth along the parent chain, with an explicit recursion bound. -/
def depthFuel (T : List (NestedPolygon K)) : ℕ → ℕ → ℕ
  | 0, _ => 0
  | fuel + 1, v =>
    if parentT T v = -1 then 0
    else depthFuel T fuel (parentT T v).toNat + 1

/-- Depth of a node below its root. -/
def depthT (T : List (NestedPolygon K)) (v : ℕ) : ℕ :=
  depthFuel T T.length v

/-- Node fields already set to their final DFS values. -/
def Written (T P : List (NestedPolygon K)) (v : ℕ) : Prop :=
  (P.getD v dfltNP).nestLevel = depthT T v ∧
    (P.getD v dfltNP).shouldFill = decide (depthT T v % 2 = 0)

/-- The level pass never changes the forest structure. -/
def Stable (T P : List (NestedPolygon K)) : Prop :=
  P.length = T.length ∧
    ∀ v, (P.getD v dfltNP).parentIndex = parentT T v ∧
      (P.getD v dfltNP).childIndices = childrenT T v

/-- One step down the forest. -/
def childRel (T : List (NestedPolygon K)) (a b : ℕ) : Prop :=
  b < T.length ∧ parentT T b = (a : ℤ)

/-- The whole subtree of `v` is written. -/
def Done (T P : List (NestedPolygon K)) (v : ℕ) : Prop :=
  ∀ c, Relation.ReflTransGen (childRel T) v c → Written T P c

theorem depthFuel_stable (T : List (NestedPolygon K)) (pos : ℕ → ℕ)
    (hpar : ∀ c q : ℕ, c < T.length → parentT T c = (q : ℤ) →
      q < T.length ∧ pos q < pos c)
    (hge : ∀ v, v < T.length → -1 ≤ parentT T v) :
    ∀ f1 : ℕ, ∀ v f2 : ℕ, v < T.length → pos v + 1 ≤ f1 → pos v + 1 ≤ f2 →
      depthFuel T f1 v = depthFuel T f2 v := by
  intro f1
  induction f1 with
  | zero => intro v f2 _ h1 _; omega
  | succ f ih =>
    intro v f2 hv h1 h2
    rcases f2 with _ | f2b
    · omega
    show (if parentT T v = -1 then 0 else depthFuel T f (parentT T v).toNat + 1) =
      (if parentT T v = -1 then 0 else depthFuel T f2b (parentT T v).toNat + 1)
    by_cases hr : parentT T v = -1
    · rw [if_pos hr, if_pos hr]
    · rw [if_neg hr, if_neg hr]
      have hnn : 0 ≤ parentT T v := by
        have hgev := hge v hv
        omega
      have hq0 : parentT T v = (((parentT T v).toNat : ℕ) : ℤ) :=
        (Int.toNat_of_nonneg hnn).symm
      obtain ⟨hqlt, hqpos⟩ := hpar v (parentT T v).toNat hv hq0
      rw [ih (parentT T v).toNat f2b hqlt (by omega) (by omega)]

theorem depthT_root (T : List (NestedPolygon K)) (v : ℕ) (hv : v < T.length)
    (hr : parentT T v = -1) : depthT T v = 0 := by
  unfold depthT
  rcases hn : T.length with _ | m
  · omega
  · show (if parentT T v = -1 then 0 else _) = 0
    rw [if_pos hr]

theorem depthT_child (T : List (NestedPolygon K)) (pos : ℕ → ℕ)
    (hpar : ∀ c q : ℕ, c < T.length → parentT T c = (q : ℤ) →
      q < T.length ∧ pos q < pos c)
    (hge : ∀ v, v < T.length → -1 ≤ parentT T v)
    (hp : ∀ v, v < T.length → pos v < T.length)
    (c q : ℕ) (hc : c < T.length) (hq : parentT T c = (q : ℤ)) :
    depthT T c = depthT T q + 1 := by
  obtain ⟨hqlt, hqpos⟩ := hpar c q hc hq
  have hposc := hp c hc
  unfold depthT
  rcases hn : T.length with _ | m
  · omega
  · show (if parentT T c = -1 then 0 else depthFuel T m (parentT T c).toNat + 1) = _
    have hne : parentT T c ≠ -1 := by rw [hq]; omega
    rw [if_neg hne, hq]
    have htn : ((q : ℤ)).toNat = q := Int.toNat_natCast q
    rw [htn]
    have := depthFuel_stable T pos hpar hge m q (m + 1) hqlt (by omega) (by omega)
    rw [this]

theorem modifyAt_of_ge {α : Type} (l : List α) (i : ℕ) (f : α → α)
    (h : l.length ≤ i) : modifyAt l i f = l := by
  unfold modifyAt
  rcases hg : l.get? i with _ | a
  · rfl
  · have := List.get?_eq_none.mpr h
    rw [this] at hg
    cases hg

theorem Stable_modifyAt (T P : List (NestedPolygon K)) (i : ℕ)
    (f : NestedPolygon K → NestedPolygon K) (h : Stable T P)
    (hf : ∀ p, (f p).parentIndex = p.parentIndex ∧ (f p).childIndices = p.childIndices) :
    Stable T (modifyAt P i f) := by
  by_cases hi : i < P.length
  · refine ⟨by rw [modifyAt_length]; exact h.1, ?_⟩
    intro v
    by_cases hv : v = i
    · subst hv
      rw [getD_modifyAt_self _ _ _ _ hi]
      exact ⟨(hf _).1.trans (h.2 v).1, (hf _).2.trans (h.2 v).2⟩
    · rw [getD_modifyAt_ne _ _ _ _ _ (fun he => hv he.symm)]
      exact h.2 v
  · rw [modifyAt_of_ge _ _ _ (by omega)]
    exact h

theorem setLevelFuel_stable (T : List (NestedPolygon K)) :
    ∀ (fuel : ℕ) (acc : List (NestedPolygon K)) (idx level : ℕ), Stable T acc →
      Stable T (setLevelFuel fuel acc idx level) := by
  intro fuel
  induction fuel with
  | zero => intro acc idx level h; exact h
  | succ f ih =>
    intro acc idx level h
    unfold setLevelFuel
    dsimp only
    have hst1 : Stable T (modifyAt acc idx (fun p =>
        { p with nestLevel := level, shouldFill := decide (level % 2 = 0) })) :=
      Stable_modifyAt T acc idx _ h (fun p => ⟨rfl, rfl⟩)
    have hfold : ∀ (cs : List ℕ) (P : List (NestedPolygon K)), Stable T P →
        Stable T (cs.foldl (fun a c => setLevelFuel f a c (level + 1)) P) := by
      intro cs
      induction cs with
      | nil => intro P h2; exact h2
      | cons c cs ihc => intro P h2; exact ihc _ (ih _ _ _ h2)
    exact hfold _ _ hst1

theorem setLevelFuel_spec (T : List (NestedPolygon K)) (pos : ℕ → ℕ)
    (hpar : ∀ c q : ℕ, c < T.length → parentT T c = (q : ℤ) →
      q < T.length ∧ pos q < pos c)
    (hge : ∀ v, v < T.length → -1 ≤ parentT T v)
    (hp : ∀ v, v < T.length → pos v < T.length)
    (hchild : ∀ p c : ℕ, p < T.length → c ∈ childrenT T p →
      c < T.length ∧ parentT T c = (p : ℤ))
    (hmem : ∀ q m : ℕ, m < T.length → parentT T m = (q : ℤ) →
      m ∈ childrenT T q) :
    ∀ (fuel : ℕ) (acc : List (NestedPolygon K)) (idx : ℕ),
      Stable T acc → idx < T.length → T.length - pos idx ≤ fuel →
      Stable T (setLevelFuel fuel acc idx (depthT T idx)) ∧
      (∀ v, Written T acc v → Written T (setLevelFuel fuel acc idx (depthT T idx)) v) ∧
      Done T (setLevelFuel fuel acc idx (depthT T idx)) idx := by
  intro fuel
  induction fuel with
  | zero =>
    intro acc idx hst hidx hfu
    exact absurd hfu (by have := hp idx hidx; omega)
  | succ f ih =>
    intro acc idx hst hidx hfu
    have hlen : acc.length = T.length := hst.1
    have hidx2 : idx < acc.length := by omega
    unfold setLevelFuel
    dsimp only
    have hstP1 : Stable T (modifyAt acc idx (fun p =>
        { p with nestLevel := depthT T idx,
                 shouldFill := decide (depthT T idx % 2 = 0) })) :=
      Stable_modifyAt T acc idx _ hst (fun p => ⟨rfl, rfl⟩)
    have hWrP1 : Written T (modifyAt acc idx (fun p =>
        { p with nestLevel := depthT T idx,
                 shouldFill := decide (depthT T idx % 2 = 0) })) idx := by
      constructor
      · rw [getD_modifyAt_self _ _ _ _ hidx2]
      · rw [getD_modifyAt_self _ _ _ _ hidx2]
    have hPersP1 : ∀ v, Written T acc v → Written T (modifyAt acc idx (fun p =>
        { p with nestLevel := depthT T idx,
                 shouldFill := decide (depthT T idx % 2 = 0) })) v := by
      intro v hv
      by_cases hvi : v = idx
      · subst hvi; exact hWrP1
      · have hne : idx ≠ v := fun h => hvi h.symm
        exact ⟨by rw [getD_modifyAt_ne _ _ _ _ _ hne]; exact hv.1,
               by rw [getD_modifyAt_ne _ _ _ _ _ hne]; exact hv.2⟩
    have hcs : ((modifyAt acc idx (fun p =>
        { p with nestLevel := depthT T idx,
                 shouldFill := decide (depthT T idx % 2 = 0) })).getD idx
        dfltNP).childIndices = childrenT T idx := (hstP1.2 idx).2
    rw [hcs]
    have hfold : ∀ (cs : List ℕ), (∀ c, c ∈ cs → c ∈ childrenT T idx) →
        ∀ P, Stable T P →
        Stable T (cs.foldl (fun a c => setLevelFuel f a c (depthT T idx + 1)) P) ∧
        (∀ v, Written T P v →
          Written T (cs.foldl (fun a c => setLevelFuel f a c (depthT T idx + 1)) P) v) ∧
        (∀ c, c ∈ cs →
          Done T (cs.foldl (fun a c2 => setLevelFuel f a c2 (depthT T idx + 1)) P) c) := by
      intro cs
      induction cs with
      | nil =>
        intro _ P hP
        exact ⟨hP, fun v h => h, by intro c hc; cases hc⟩
      | cons c cs ihc =>
        intro hmemcs P hP
        have hcmem : c ∈ childrenT T idx := hmemcs c (List.mem_cons_self c cs)
        obtain ⟨hclt, hcpar⟩ := hchild idx c hidx hcmem
        have hlev : depthT T c = depthT T idx + 1 :=
          depthT_child T pos hpar hge hp c idx hclt hcpar
        obtain ⟨-, hposlt⟩ := hpar c idx hclt hcpar
        have hfu2 : T.length - pos c ≤ f := by omega
        have hstep := ih P c hP hclt hfu2
        rw [hlev] at hstep
        obtain ⟨hstepSt, hstepPers, hstepDone⟩ := hstep
        have hrest := ihc (fun c2 h2 => hmemcs c2 (List.mem_cons_of_mem _ h2)) _ hstepSt
        rw [List.foldl_cons]
        refine ⟨hrest.1, fun v hv => hrest.2.1 v (hstepPers v hv), ?_⟩
        intro c2 hc2
        rcases List.mem_cons.mp hc2 with h | h
        · subst h
          intro d hd
          exact hrest.2.1 d (hstepDone d hd)
        · exact hrest.2.2 c2 h
    obtain ⟨hSt, hPers, hDoneCh⟩ := hfold (childrenT T idx) (fun c h => h) _ hstP1
    refine ⟨hSt, fun v hv => hPers v (hPersP1 v hv), ?_⟩
    intro d hd
    rcases Relation.ReflTransGen.cases_head hd with h | ⟨c, hrel, hrest2⟩
    · exact h ▸ hPers idx hWrP1
    · obtain ⟨hclt, hcpar⟩ := hrel
      have hcmem : c ∈ childrenT T idx := hmem idx c hclt hcpar
      exact hDoneCh c hcmem d hrest2

theorem calculateNestLevels_written (T : List (NestedPolygon K)) (pos : ℕ → ℕ)
    (hpar : ∀ c q : ℕ, c < T.length → parentT T c = (q : ℤ) →
      q < T.length ∧ pos q < pos c)
    (hge : ∀ v, v < T.length → -1 ≤ parentT T v)
    (hp : ∀ v, v < T.length → pos v < T.length)
    (hchild : ∀ p c : ℕ, p < T.length → c ∈ childrenT T p →
      c < T.length ∧ parentT T c = (p : ℤ))
    (hmem : ∀ q m : ℕ, m < T.length → parentT T m = (q : ℤ) →
      m ∈ childrenT T q) :
    Stable T (calculateNestLevels T) ∧
    ∀ v, v < T.length → Written T (calculateNestLevels T) v := by
  have hstT : Stable T T := ⟨rfl, fun v => ⟨rfl, rfl⟩⟩
  have hfold : ∀ (rs : List ℕ), (∀ r, r ∈ rs → r < T.length ∧ parentT T r = -1) →
      ∀ P, Stable T P →
      Stable T (rs.foldl (fun acc r => setLevelFuel T.length acc r 0) P) ∧
      (∀ v, Written T P v →
        Written T (rs.foldl (fun acc r => setLevelFuel T.length acc r 0) P) v) ∧
      (∀ r, r ∈ rs →
        Done T (rs.foldl (fun acc r2 => setLevelFuel T.length acc r2 0) P) r) := by
    intro rs
    induction rs with
    | nil =>
      intro _ P hP
      exact ⟨hP, fun v h => h, by intro r hr; cases hr⟩
    | cons r rs ihr =>
      intro hroots P hP
      obtain ⟨hrlt, hroot⟩ := hroots r (List.mem_cons_self r rs)
      have hstep := setLevelFuel_spec T pos hpar hge hp hchild hmem
        T.length P r hP hrlt (by omega)
      rw [depthT_root T r hrlt hroot] at hstep
      obtain ⟨hstepSt, hstepPers, hstepDone⟩ := hstep
      have hrest := ihr (fun r2 h2 => hroots r2 (List.mem_cons_of_mem _ h2)) _ hstepSt
      rw [List.foldl_cons]
      refine ⟨hrest.1, fun v hv => hrest.2.1 v (hstepPers v hv), ?_⟩
      intro r2 hr2
      rcases List.mem_cons.mp hr2 with h | h
      · subst h
        intro d hd
        exact hrest.2.1 d (hstepDone d hd)
      · exact hrest.2.2 r2 h
  have hreach : ∀ m v, pos v = m → v < T.length →
      ∃ r, r < T.length ∧ parentT T r = -1 ∧
        Relation.ReflTransGen (childRel T) r v := by
    intro m
    induction m using Nat.strong_induction_on with
    | _ m ihm =>
      intro v hposv hv
      by_cases hroot : parentT T v = -1
      · exact ⟨v, hv, hroot, Relation.ReflTransGen.refl⟩
      · have hgev := hge v hv
        have hq : parentT T v = (((parentT T v).toNat : ℕ) : ℤ) :=
          (Int.toNat_of_nonneg (by omega)).symm
        obtain ⟨hqlt, hqpos⟩ := hpar v _ hv hq
        obtain ⟨r, hr1, hr2, hr3⟩ := ihm (pos (parentT T v).toNat) (by omega) _ rfl hqlt
        exact ⟨r, hr1, hr2, hr3.tail ⟨hv, hq⟩⟩
  have hmemroots : ∀ r, r ∈ (List.range T.length).filter
      (fun i => (T.getD i dfltNP).parentIndex = -1) → r < T.length ∧ parentT T r = -1 := by
    intro r hr
    rw [List.mem_filter, List.mem_range] at hr
    exact ⟨hr.1, of_decide_eq_true hr.2⟩
  obtain ⟨hSt, hPers, hDone⟩ := hfold _ hmemroots T hstT
  constructor
  · exact hSt
  · intro v hv
    obtain ⟨r, hr1, hr2, hr3⟩ := hreach (pos v) v rfl hv
    have hrmem : r ∈ (List.range T.length).filter
        (fun i => (T.getD i dfltNP).parentIndex = -1) := by
      rw [List.mem_filter, List.mem_range]
      exact ⟨hr1, decide_eq_true hr2⟩
    exact hDone r hrmem v hr3

/-- The structural invariant maintained while `buildNestingTree` processes
the first `k` sorted positions: untouched nodes are still roots with no
children, every parent link points to a strictly earlier sorted position,
and parent and child lists agree. -/
def TreeInv (n : ℕ) (S : List ℕ) (k : ℕ) (P : List (NestedPolygon K)) : Prop :=
  P.length = n ∧
  (∀ v, v < n → k ≤ S.indexOf v →
    (P.getD v dfltNP).parentIndex = -1 ∧ (P.getD v dfltNP).childIndices = []) ∧
  (∀ c q : ℕ, c < n → (P.getD c dfltNP).parentIndex = (q : ℤ) →
    q < n ∧ S.indexOf q < S.indexOf c ∧ S.indexOf c < k) ∧
  (∀ v, v < n → -1 ≤ (P.getD v dfltNP).parentIndex) ∧
  (∀ p c : ℕ, p < n → c ∈ (P.getD p dfltNP).childIndices →
    c < n ∧ (P.getD c dfltNP).parentIndex = (p : ℤ)) ∧
  (∀ q m : ℕ, m < n → (P.getD m dfltNP).parentIndex = (q : ℤ) →
    m ∈ (P.getD q dfltNP).childIndices)

/-- The parent-picking fold of `buildNestingTree`, written with its lets
inlined (definitionally equal to the fold in the source, with `cur` the
index of the polygon currently being placed). -/
def pickParent (S : List ℕ) (P : List (NestedPolygon K)) (cur : ℕ) (k : ℕ) :
    ℤ × Option K :=
  (List.range k).foldl (fun (st : ℤ × Option K) j =>
    let candidateIdx := S.getD j 0
    let candidate := P.getD candidateIdx dfltNP
    if isPolygonInsidePolygon (P.getD cur dfltNP) candidate then
      let candidateArea := |candidate.signedArea|
      match st.2 with
      | none => ((candidateIdx : ℤ), some candidateArea)
      | some m =>
        if candidateArea < m then ((candidateIdx : ℤ), some candidateArea) else st
    else st) (-1, none)

theorem pickParent_cases (S : List ℕ) (P : List (NestedPolygon K)) (cur : ℕ) (k : ℕ) :
    (pickParent S P cur k).1 = -1 ∨
      ∃ j, j < k ∧ (pickParent S P cur k).1 = ((S.getD j 0 : ℕ) : ℤ) := by
  induction k with
  | zero => left; rfl
  | succ k ihk =>
    have hsucc : pickParent S P cur (k + 1) =
        (fun (st : ℤ × Option K) j =>
          let candidateIdx := S.getD j 0
          let candidate := P.getD candidateIdx dfltNP
          if isPolygonInsidePolygon (P.getD cur dfltNP) candidate then
            let candidateArea := |candidate.signedArea|
            match st.2 with
            | none => ((candidateIdx : ℤ), some candidateArea)
            | some m =>
              if candidateArea < m then ((candidateIdx : ℤ), some candidateArea) else st
          else st) (pickParent S P cur k) k := by
      unfold pickParent
      rw [List.range_succ, List.foldl_append, List.foldl_cons, List.foldl_nil]
    rw [hsucc]
    dsimp only
    split
    · rcases hm : (pickParent S P cur k).2 with _ | m
      · right; exact ⟨k, by omega, rfl⟩
      · dsimp only
        split
        · right; exact ⟨k, by omega, rfl⟩
        · rcases ihk with h | ⟨j, hj, he⟩
          · left; exact h
          · right; exact ⟨j, by omega, he⟩
    · rcases ihk with h | ⟨j, hj, he⟩
      · left; exact h
      · right; exact ⟨j, by omega, he⟩

theorem indexOf_getD (S : List ℕ) (hS : S.Nodup) (j : ℕ) (hj : j < S.length) :
    S.indexOf (S.getD j 0) = j := by
  rw [List.getD_eq_getElem S 0 hj]
  exact List.indexOf_getElem hS j hj

theorem getD_mem_of_lt (S : List ℕ) (j : ℕ) (hj : j < S.length) : S.getD j 0 ∈ S := by
  rw [List.getD_eq_getElem S 0 hj]
  exact List.getElem_mem hj

theorem treeInv_step (S : List ℕ) (n : ℕ) (hSlen : S.length = n) (hSnodup : S.Nodup)
    (hSmem : ∀ v, v ∈ S ↔ v < n) (k : ℕ) (hk : k < S.length)
    (P : List (NestedPolygon K)) (hinv : TreeInv n S k P) :
    TreeInv n S (k + 1)
      (if (pickParent S P (S.getD k 0) k).1 ≠ -1 then
        modifyAt (modifyAt P (S.getD k 0)
            (fun p => { p with parentIndex := (pickParent S P (S.getD k 0) k).1 }))
          (pickParent S P (S.getD k 0) k).1.toNat
          (fun p => { p with childIndices := p.childIndices ++ [S.getD k 0] })
      else P) := by
  obtain ⟨h1, h2, h3, h4, h5, h6⟩ := hinv
  set cur := S.getD k 0 with hcurdef
  have hcur_lt : cur < n := (hSmem cur).mp (getD_mem_of_lt S k hk)
  have hpos_cur : S.indexOf cur = k := indexOf_getD S hSnodup k hk
  rcases pickParent_cases S P cur k with hpick | ⟨j, hjk, hpick⟩
  · rw [if_neg (fun hne => hne hpick)]
    refine ⟨h1, fun v hv hk1 => h2 v hv (by omega), fun c q2 hc hq2 => ?_, h4, h5, h6⟩
    obtain ⟨ha, hb, hc3⟩ := h3 c q2 hc hq2
    exact ⟨ha, hb, by omega⟩
  · have hjlen : j < S.length := by omega
    set q := S.getD j 0 with hqdef
    have hq_lt : q < n := (hSmem q).mp (getD_mem_of_lt S j hjlen)
    have hpos_q : S.indexOf q = j := indexOf_getD S hSnodup j hjlen
    have hq_ne_cur : q ≠ cur := by
      intro h
      rw [h, hpos_cur] at hpos_q
      omega
    have hcond : (pickParent S P cur k).1 ≠ -1 := by
      rw [hpick]
      intro h
      omega
    rw [if_pos hcond, hpick, Int.toNat_natCast]
    have hcur_len : cur < P.length := by omega
    have hq_len2 : q < (modifyAt P cur
        (fun p => { p with parentIndex := ((q : ℕ) : ℤ) })).length := by
      rw [modifyAt_length]; omega
    have hg_cur : ((modifyAt (modifyAt P cur
        (fun p => { p with parentIndex := ((q : ℕ) : ℤ) })) q
        (fun p => { p with childIndices := p.childIndices ++ [cur] })).getD cur dfltNP) =
        { P.getD cur dfltNP with parentIndex := ((q : ℕ) : ℤ) } := by
      rw [getD_modifyAt_ne _ _ _ _ _ hq_ne_cur, getD_modifyAt_self _ _ _ _ hcur_len]
    have hg_q : ((modifyAt (modifyAt P cur
        (fun p => { p with parentIndex := ((q : ℕ) : ℤ) })) q
        (fun p => { p with childIndices := p.childIndices ++ [cur] })).getD q dfltNP) =
        { P.getD q dfltNP with
          childIndices := (P.getD q dfltNP).childIndices ++ [cur] } := by
      rw [getD_modifyAt_self _ _ _ _ hq_len2,
        getD_modifyAt_ne _ _ _ _ _ (fun h => hq_ne_cur h.symm)]
    have hg_other : ∀ v, v ≠ cur → v ≠ q →
        ((modifyAt (modifyAt P cur
          (fun p => { p with parentIndex := ((q : ℕ) : ℤ) })) q
          (fun p => { p with childIndices := p.childIndices ++ [cur] })).getD v dfltNP) =
        P.getD v dfltNP := by
      intro v hvc hvq
      rw [getD_modifyAt_ne _ _ _ _ _ (fun h => hvq h.symm),
        getD_modifyAt_ne _ _ _ _ _ (fun h => hvc h.symm)]
    refine ⟨?_, ?_, ?_, ?_, ?_, ?_⟩
    · rw [modifyAt_length, modifyAt_length]; exact h1
    · intro v hv hk1
      have hvc : v ≠ cur := by intro h; rw [h, hpos_cur] at hk1; omega
      have hvq : v ≠ q := by intro h; rw [h, hpos_q] at hk1; omega
      rw [hg_other v hvc hvq]
      exact h2 v hv (by omega)
    · intro c q2 hc hq2
      by_cases hcc : c = cur
      · subst hcc
        rw [hg_cur] at hq2
        dsimp only at hq2
        have hqq : q2 = q := by omega
        subst hqq
        refine ⟨hq_lt, ?_, ?_⟩
        · rw [hpos_q, hpos_cur]; omega
        · rw [hpos_cur]; omega
      · have hpar_c : ((modifyAt (modifyAt P cur
            (fun p => { p with parentIndex := ((q : ℕ) : ℤ) })) q
            (fun p => { p with childIndices := p.childIndices ++ [cur] })).getD c
            dfltNP).parentIndex = (P.getD c dfltNP).parentIndex := by
          by_cases hcq : c = q
          · subst hcq; rw [hg_q]
          · rw [hg_other c hcc hcq]
        rw [hpar_c] at hq2
        obtain ⟨ha, hb, hc3⟩ := h3 c q2 hc hq2
        exact ⟨ha, hb, by omega⟩
    · intro v hv
      by_cases hvc : v = cur
      · subst hvc
        rw [hg_cur]
        dsimp only
        omega
      · by_cases hvq : v = q
        · subst hvq
          rw [hg_q]
          dsimp only
          exact h4 q hq_lt
        · rw [hg_other v hvc hvq]
          exact h4 v hv
    · intro p c hp2 hcmem
      by_cases hpq : p = q
      · subst hpq
        rw [hg_q] at hcmem
        dsimp only at hcmem
        rcases List.mem_append.mp hcmem with hold | hnew
        · obtain ⟨hclt, hcpar⟩ := h5 q c hq_lt hold
          have hcc : c ≠ cur := by
            intro h
            rw [h] at hcpar
            have h22 := (h2 cur hcur_lt (by omega)).1
            rw [h22] at hcpar
            omega
          refine ⟨hclt, ?_⟩
          have hpp : ((modifyAt (modifyAt P cur
              (fun p => { p with parentIndex := ((q : ℕ) : ℤ) })) q
              (fun p => { p with childIndices := p.childIndices ++ [cur] })).getD c
              dfltNP).parentIndex = (P.getD c dfltNP).parentIndex := by
            by_cases hcq : c = q
            · subst hcq; rw [hg_q]
            · rw [hg_other c hcc hcq]
          rw [hpp, hcpar]
        · have hcc : c = cur := by simpa using hnew
          subst hcc
          refine ⟨hcur_lt, ?_⟩
          rw [hg_cur]
      · have hch_p : ((modifyAt (modifyAt P cur
            (fun p => { p with parentIndex := ((q : ℕ) : ℤ) })) q
            (fun p => { p with childIndices := p.childIndices ++ [cur] })).getD p
            dfltNP).childIndices = (P.getD p dfltNP).childIndices := by
          by_cases hpc : p = cur
          · subst hpc; rw [hg_cur]
          · rw [hg_other p hpc hpq]
        rw [hch_p] at hcmem
        obtain ⟨hclt, hcpar⟩ := h5 p c hp2 hcmem
        have hcc : c ≠ cur := by
          intro h
          rw [h] at hcpar
          have h22 := (h2 cur hcur_lt (by omega)).1
          rw [h22] at hcpar
          omega
        refine ⟨hclt, ?_⟩
        have hpp : ((modifyAt (modifyAt P cur
            (fun p => { p with parentIndex := ((q : ℕ) : ℤ) })) q
            (fun p => { p with childIndices := p.childIndices ++ [cur] })).getD c
            dfltNP).parentIndex = (P.getD c dfltNP).parentIndex := by
          by_cases hcq : c = q
          · subst hcq; rw [hg_q]
          · rw [hg_other c hcc hcq]
        rw [hpp, hcpar]
    · intro q2 m hm hq2
      by_cases hmc : m = cur
      · subst hmc
        rw [hg_cur] at hq2
        dsimp only at hq2
        have hqq : q2 = q := by omega
        subst hqq
        rw [hg_q]
        dsimp only
        exact List.mem_append.mpr (Or.inr (List.mem_singleton.mpr rfl))
      · have hpm : ((modifyAt (modifyAt P cur
            (fun p => { p with parentIndex := ((q : ℕ) : ℤ) })) q
            (fun p => { p with childIndices := p.childIndices ++ [cur] })).getD m
            dfltNP).parentIndex = (P.getD m dfltNP).parentIndex := by
          by_cases hmq : m = q
          · subst hmq; rw [hg_q]
          · rw [hg_other m hmc hmq]
        rw [hpm] at hq2
        have hold := h6 q2 m hm hq2
        by_cases hq2q : q2 = q
        · subst hq2q
          rw [hg_q]
          dsimp only
          exact List.mem_append.mpr (Or.inl hold)
        · by_cases hq2c : q2 = cur
          · subst hq2c
            rw [hg_cur]
            dsimp only
            exact hold
          · rw [hg_other q2 hq2c hq2q]
            exact hold

theorem getD_init (infos : List (NestedPolygon K))
    (h : ∀ p, p ∈ infos → p.parentIndex = -1 ∧ p.childIndices = []) (v : ℕ) :
    (infos.getD v dfltNP).parentIndex = -1 ∧ (infos.getD v dfltNP).childIndices = [] := by
  by_cases hv : v < infos.length
  · exact h _ (by rw [List.getD_eq_getElem _ dfltNP hv]; exact List.getElem_mem hv)
  · rw [List.getD_eq_getElem?_getD, List.getElem?_eq_none (by omega)]
    exact ⟨rfl, rfl⟩

theorem buildNestingTree_inv (infos : List (NestedPolygon K)) (S : List ℕ) (n : ℕ)
    (hSlen : S.length = n) (hSnodup : S.Nodup) (hSmem : ∀ v, v ∈ S ↔ v < n)
    (hlen : infos.length = n)
    (hinit : ∀ v, (infos.getD v dfltNP).parentIndex = -1 ∧
      (infos.getD v dfltNP).childIndices = []) :
    TreeInv n S S.length (buildNestingTree infos S) := by
  have hbase : TreeInv n S 0 infos := by
    refine ⟨hlen, fun v hv _ => hinit v, ?_, ?_, ?_, ?_⟩
    · intro c q hc hq
      rw [(hinit c).1] at hq
      omega
    · intro v hv
      rw [(hinit v).1]
    · intro p c hp hmemc
      rw [(hinit p).2] at hmemc
      cases hmemc
    · intro q m hm hq
      rw [(hinit m).1] at hq
      omega
  unfold buildNestingTree
  have hmain : ∀ k, k ≤ S.length →
      TreeInv n S k ((List.range k).foldl (fun polys i =>
        let currentIdx := S.getD i 0
        let current := polys.getD currentIdx dfltNP
        let pick := (List.range i).foldl (fun (st : ℤ × Option K) j =>
          let candidateIdx := S.getD j 0
          let candidate := polys.getD candidateIdx dfltNP
          if isPolygonInsidePolygon current candidate then
            let candidateArea := |candidate.signedArea|
            match st.2 with
            | none => ((candidateIdx : ℤ), some candidateArea)
            | some m =>
              if candidateArea < m then ((candidateIdx : ℤ), some candidateArea) else st
          else st) (-1, none)
        if pick.1 ≠ -1 then
          let polys2 := modifyAt polys currentIdx (fun p => { p with parentIndex := pick.1 })
          modifyAt polys2 pick.1.toNat (fun p =>
            { p with childIndices := p.childIndices ++ [currentIdx] })
        else polys) infos) := by
    intro k
    induction k with
    | zero => intro _; exact hbase
    | succ k ihk =>
      intro hk1
      rw [List.range_succ, List.foldl_append, List.foldl_cons, List.foldl_nil]
      exact treeInv_step S n hSlen hSnodup hSmem k (by omega) _ (ihk (by omega))
  exact hmain S.length le_rfl

theorem processPolygons_invariant (polygons : List (List (P2 K))) :
    ∀ v, v < (processPolygons polygons).length →
      (((processPolygons polygons).getD v dfltNP).parentIndex = -1 →
        ((processPolygons polygons).getD v dfltNP).nestLevel = 0) ∧
      (∀ q : ℕ, ((processPolygons polygons).getD v dfltNP).parentIndex = (q : ℤ) →
        q < (processPolygons polygons).length ∧
        ((processPolygons polygons).getD v dfltNP).nestLevel =
          ((processPolygons polygons).getD q dfltNP).nestLevel + 1) ∧
      (((processPolygons polygons).getD v dfltNP).shouldFill = true ↔
        ((processPolygons polygons).getD v dfltNP).nestLevel % 2 = 0) := by
  by_cases h0 : polygons.length = 0
  · intro v hv
    rw [show processPolygons polygons = [] from by unfold processPolygons; rw [if_pos h0]]
      at hv
    simp at hv
  · set infos := polygons.map (fun points =>
      let cleaned := cleanPolygonPoints points
      ({ points := cleaned, signedArea := calculateSignedArea cleaned,
         bbox := calculateBoundingBox cleaned, nestLevel := 0, parentIndex := -1,
         childIndices := [], shouldFill := true } : NestedPolygon K)) with hinfos
    set S := sortIndicesByAreaDesc infos with hS
    set T := buildNestingTree infos S with hT
    have hout : processPolygons polygons = calculateNestLevels T := by
      unfold processPolygons
      rw [if_neg h0]
    have hinit : ∀ v, (infos.getD v dfltNP).parentIndex = -1 ∧
        (infos.getD v dfltNP).childIndices = [] := by
      refine getD_init infos ?_
      intro p hp
      rw [hinfos] at hp
      obtain ⟨pts, hpts, rfl⟩ := List.mem_map.mp hp
      exact ⟨rfl, rfl⟩
    have hSperm := sortIndices_perm infos
    have hSlen : S.length = infos.length := by
      rw [hS, hSperm.length_eq, List.length_range]
    have hSnodup : S.Nodup := hSperm.nodup_iff.mpr (List.nodup_range _)
    have hSmem : ∀ v, v ∈ S ↔ v < infos.length := by
      intro v
      rw [hS, hSperm.mem_iff, List.mem_range]
    obtain ⟨t1, t2, t3, t4, t5, t6⟩ :=
      buildNestingTree_inv infos S infos.length hSlen hSnodup hSmem rfl hinit
    rw [← hT] at t1 t3 t4 t5 t6
    have hpar : ∀ c q : ℕ, c < T.length → parentT T c = (q : ℤ) →
        q < T.length ∧ S.indexOf q < S.indexOf c := by
      intro c q hc hq
      obtain ⟨ha, hb, -⟩ := t3 c q (by omega) hq
      exact ⟨by omega, hb⟩
    have hge : ∀ v, v < T.length → -1 ≤ parentT T v := by
      intro v hv
      exact t4 v (by omega)
    have hp : ∀ v, v < T.length → S.indexOf v < T.length := by
      intro v hv
      have hmemv : v ∈ S := (hSmem v).mpr (by omega)
      have := List.indexOf_lt_length.mpr hmemv
      omega
    have hchild : ∀ p c : ℕ, p < T.length → c ∈ childrenT T p →
        c < T.length ∧ parentT T c = (p : ℤ) := by
      intro p c hp2 hc2
      obtain ⟨ha, hb⟩ := t5 p c (by omega) hc2
      exact ⟨by omega, hb⟩
    have hmem : ∀ q m : ℕ, m < T.length → parentT T m = (q : ℤ) →
        m ∈ childrenT T q := by
      intro q m hm hq
      exact t6 q m (by omega) hq
    obtain ⟨hstab, hwr⟩ :=
      calculateNestLevels_written T (fun v => S.indexOf v) hpar hge hp hchild hmem
    intro v hv
    rw [hout] at hv ⊢
    have hlenout : (calculateNestLevels T).length = T.length := hstab.1
    have hvT : v < T.length := by omega
    have hwv := hwr v hvT
    refine ⟨?_, ?_, ?_⟩
    · intro hroot
      rw [(hstab.2 v).1] at hroot
      rw [hwv.1]
      exact depthT_root T v hvT hroot
    · intro q hq
      rw [(hstab.2 v).1] at hq
      have hdq := depthT_child T (fun v => S.indexOf v) hpar hge hp v q hvT hq
      have hqT : q < T.length := (hpar v q hvT hq).1
      have hwq := hwr q hqT
      refine ⟨by omega, ?_⟩
      rw [hwv.1, hwq.1, hdq]
    · rw [hwv.2, hwv.1]
      exact decide_eq_true_iff

/-- The spec's containment test case: an outer 10x10 square, a 6x6 hole
strictly inside it, and a 2x2 island strictly inside the hole. -/
def threeSquares : List (List (P2 ℚ)) :=
  [[⟨0, 0⟩, ⟨10, 0⟩, ⟨10, 10⟩, ⟨0, 10⟩],
   [⟨2, 2⟩, ⟨8, 2⟩, ⟨8, 8⟩, ⟨2, 8⟩],
   [⟨4, 4⟩, ⟨6, 4⟩, ⟨6, 6⟩, ⟨4, 6⟩]]

end Nesting

end Dwg

namespace Dwg

namespace Nesting

/-- **C8**: every polygon in the output of `processPolygons` satisfies the
nesting-parity invariant — a polygon whose `parentIndex` is `-1` (a forest
root) has `nestLevel` 0, every polygon whose `parentIndex` names a parent
has `nestLevel` equal to the parent's `nestLevel` plus one, and
`shouldFill` holds exactly when `nestLevel` is even; in particular the
outer square, the hole strictly inside it and the island strictly inside
the hole resolve to nest levels 0, 1, 2 with fill true, false, true. -/
theorem C8_nesting_parity :
    (∀ (K : Type) [inst : LinearOrderedField K] (polygons : List (List (P2 K))),
      ∀ v, v < (processPolygons polygons).length →
        (((processPolygons polygons).getD v dfltNP).parentIndex = -1 →
          ((processPolygons polygons).getD v dfltNP).nestLevel = 0) ∧
        (∀ q : ℕ, ((processPolygons polygons).getD v dfltNP).parentIndex = (q : ℤ) →
          q < (processPolygons polygons).length ∧
          ((processPolygons polygons).getD v dfltNP).nestLevel =
            ((processPolygons polygons).getD q dfltNP).nestLevel + 1) ∧
        (((processPolygons polygons).getD v dfltNP).shouldFill = true ↔
          ((processPolygons polygons).getD v dfltNP).nestLevel % 2 = 0)) ∧
    (processPolygons threeSquares).map
        (fun p => (p.nestLevel, p.parentIndex, p.shouldFill)) =
      [(0, -1, true), (1, 0, false), (2, 1, true)] := by
  constructor
  · intro K inst polygons v hv
    exact processPolygons_invariant polygons v hv
  · decide!

end Nesting

end Dwg
